/-
  Verification of the AES-CBC encryption engine of the AES-Encryption repository.

  The development shallowly embeds the TypeScript sources:
    - src/crypto/aesCore.ts        (block transforms, single-block encrypt/decrypt)
    - src/crypto/keyExpansion.ts   (key schedule)
    - src/crypto/cbcMode.ts        (CBC chaining, PKCS#7 padding, step traces)
    - src/crypto/utils.ts          (byte/hex utilities)
    - src/crypto/index.ts          (string-level API boundary)

  Bytes are Nat values (JS numbers restricted to 0..255 where bounds matter);
  byte arrays are List Nat; fallible code (JS throw) is Except String carrying
  the thrown message text.

  The repository's aesConstants.ts is not among the available sources; the
  constants it exports (SBOX, INV_SBOX, RCON, the GF(2^8) multiplication
  tables MULT_2/3/9/11/13/14, KEY_SIZES, NUM_ROUNDS, BLOCK_SIZE_BYTES) are
  modelled from the specification: standard AES tables over the reduction
  polynomial x^8+x^4+x^3+x+1, 10/12/14 rounds for 16/24/32-byte keys, and a
  16-byte block size.  The FIPS-197 known-answer theorem below validates the
  modelled tables, as the specification demands.
-/
import Mathlib

set_option maxRecDepth 10000
set_option maxHeartbeats 1600000

/-! ## GF(2^8) arithmetic (modelled from the spec, aesConstants.ts missing) -/

/-- Modelled from the spec: multiplication by x in GF(2^8) under the AES
reduction polynomial x^8+x^4+x^3+x+1 (0x11b): shift left one bit and, if the
top bit of the byte was set, xor away the reduction polynomial. -/
def xtime (b : Nat) : Nat :=
  if b.testBit 7 then (2 * b) ^^^ 0x11b else 2 * b

/-- Modelled from the spec: standard carry-less multiply-and-reduce
(Russian-peasant) GF(2^8) multiplication, 8 bit-rounds of fuel. -/
def gfMulAux : Nat → Nat → Nat → Nat
  | 0, _, _ => 0
  | fuel+1, a, b =>
      (if b % 2 = 1 then a else 0) ^^^ gfMulAux fuel (xtime a) (b / 2)

/-- Modelled from the spec: gfMultiply over GF(2^8). -/
def gfMul (a b : Nat) : Nat := gfMulAux 8 a b

/-- Modelled from the spec: the multiply-by-2 lookup table of aesConstants.ts,
`MULT_2[b] = gfMultiply(b, 2)`, as a function of the index. -/
def MULT_2 (b : Nat) : Nat := gfMul b 2

/-- Modelled from the spec: `MULT_3[b] = gfMultiply(b, 3)`. -/
def MULT_3 (b : Nat) : Nat := gfMul b 3

/-- Modelled from the spec: `MULT_9[b] = gfMultiply(b, 9)`. -/
def MULT_9 (b : Nat) : Nat := gfMul b 9

/-- Modelled from the spec: `MULT_11[b] = gfMultiply(b, 11)`. -/
def MULT_11 (b : Nat) : Nat := gfMul b 11

/-- Modelled from the spec: `MULT_13[b] = gfMultiply(b, 13)`. -/
def MULT_13 (b : Nat) : Nat := gfMul b 13

/-- Modelled from the spec: `MULT_14[b] = gfMultiply(b, 14)`. -/
def MULT_14 (b : Nat) : Nat := gfMul b 14

/-- Modelled from the spec: round constants, indexed from 1
(RCON[1] = 1, RCON[i+1] = xtime RCON[i]; index 0 is never used by
keyExpansion, the conventional wrap-around value 0x8d is placed there). -/
def RCON : Nat → Nat
  | 0 => 0x8d
  | 1 => 1
  | n+2 => xtime (RCON (n+1))

/-- Modelled from the spec: the forward AES S-box of aesConstants.ts
(FIPS-197), as a 256-entry table. -/
def SBOX : List Nat := [
  99, 124, 119, 123, 242, 107, 111, 197, 48, 1, 103, 43, 254, 215, 171, 118,
  202, 130, 201, 125, 250, 89, 71, 240, 173, 212, 162, 175, 156, 164, 114, 192,
  183, 253, 147, 38, 54, 63, 247, 204, 52, 165, 229, 241, 113, 216, 49, 21,
  4, 199, 35, 195, 24, 150, 5, 154, 7, 18, 128, 226, 235, 39, 178, 117,
  9, 131, 44, 26, 27, 110, 90, 160, 82, 59, 214, 179, 41, 227, 47, 132,
  83, 209, 0, 237, 32, 252, 177, 91, 106, 203, 190, 57, 74, 76, 88, 207,
  208, 239, 170, 251, 67, 77, 51, 133, 69, 249, 2, 127, 80, 60, 159, 168,
  81, 163, 64, 143, 146, 157, 56, 245, 188, 182, 218, 33, 16, 255, 243, 210,
  205, 12, 19, 236, 95, 151, 68, 23, 196, 167, 126, 61, 100, 93, 25, 115,
  96, 129, 79, 220, 34, 42, 144, 136, 70, 238, 184, 20, 222, 94, 11, 219,
  224, 50, 58, 10, 73, 6, 36, 92, 194, 211, 172, 98, 145, 149, 228, 121,
  231, 200, 55, 109, 141, 213, 78, 169, 108, 86, 244, 234, 101, 122, 174, 8,
  186, 120, 37, 46, 28, 166, 180, 198, 232, 221, 116, 31, 75, 189, 139, 138,
  112, 62, 181, 102, 72, 3, 246, 14, 97, 53, 87, 185, 134, 193, 29, 158,
  225, 248, 152, 17, 105, 217, 142, 148, 155, 30, 135, 233, 206, 85, 40, 223,
  140, 161, 137, 13, 191, 230, 66, 104, 65, 153, 45, 15, 176, 84, 187, 22]

/-- Modelled from the spec: the inverse AES S-box of aesConstants.ts
(FIPS-197), the exact inverse table of SBOX. -/
def INV_SBOX : List Nat := [
  82, 9, 106, 213, 48, 54, 165, 56, 191, 64, 163, 158, 129, 243, 215, 251,
  124, 227, 57, 130, 155, 47, 255, 135, 52, 142, 67, 68, 196, 222, 233, 203,
  84, 123, 148, 50, 166, 194, 35, 61, 238, 76, 149, 11, 66, 250, 195, 78,
  8, 46, 161, 102, 40, 217, 36, 178, 118, 91, 162, 73, 109, 139, 209, 37,
  114, 248, 246, 100, 134, 104, 152, 22, 212, 164, 92, 204, 93, 101, 182, 146,
  108, 112, 72, 80, 253, 237, 185, 218, 94, 21, 70, 87, 167, 141, 157, 132,
  144, 216, 171, 0, 140, 188, 211, 10, 247, 228, 88, 5, 184, 179, 69, 6,
  208, 44, 30, 143, 202, 63, 15, 2, 193, 175, 189, 3, 1, 19, 138, 107,
  58, 145, 17, 65, 79, 103, 220, 234, 151, 242, 207, 206, 240, 180, 230, 115,
  150, 172, 116, 34, 231, 173, 53, 133, 226, 249, 55, 232, 28, 117, 223, 110,
  71, 241, 26, 113, 29, 41, 197, 137, 111, 183, 98, 14, 170, 24, 190, 27,
  252, 86, 62, 75, 198, 210, 121, 32, 154, 219, 192, 254, 120, 205, 90, 244,
  31, 221, 168, 51, 136, 7, 199, 49, 177, 18, 16, 89, 39, 128, 236, 95,
  96, 81, 127, 169, 25, 181, 74, 13, 45, 229, 122, 159, 147, 201, 156, 239,
  160, 224, 59, 77, 174, 42, 245, 176, 200, 235, 187, 60, 131, 83, 153, 97,
  23, 43, 4, 126, 186, 119, 214, 38, 225, 105, 20, 99, 85, 33, 12, 125]

/-! ## Basic facts about the GF layer -/

theorem xor_lt_256 {x y : Nat} (hx : x < 256) (hy : y < 256) : x ^^^ y < 256 := by
  have h8 : (256 : Nat) = 2 ^ 8 := by norm_num
  rw [h8] at hx hy ⊢
  exact Nat.xor_lt_two_pow hx hy

theorem xtime_lt_aux : ∀ b : Fin 256, xtime b.val < 256 := by decide

theorem xtime_lt {b : Nat} (hb : b < 256) : xtime b < 256 := xtime_lt_aux ⟨b, hb⟩

theorem gfMulAux_lt {a : Nat} (ha : a < 256) (fuel b : Nat) :
    gfMulAux fuel a b < 256 := by
  induction fuel generalizing a b with
  | zero => norm_num [gfMulAux]
  | succ n ih =>
      refine xor_lt_256 ?_ (ih (xtime_lt ha) _)
      split <;> [exact ha; norm_num]

theorem gfMul_lt {a : Nat} (ha : a < 256) (b : Nat) : gfMul a b < 256 :=
  gfMulAux_lt ha 8 b

theorem xor_left_comm (a b c : Nat) : a ^^^ (b ^^^ c) = b ^^^ (a ^^^ c) := by
  rw [← Nat.xor_assoc, Nat.xor_comm a b, Nat.xor_assoc]

theorem two_mul_xor (x y : Nat) : 2 * (x ^^^ y) = (2 * x) ^^^ (2 * y) := by
  apply Nat.eq_of_testBit_eq
  intro i
  cases i with
  | zero => simp [Nat.testBit_zero, Nat.mul_mod_right, Nat.testBit_xor]
  | succ j =>
      rw [Nat.testBit_xor, Nat.testBit_succ, Nat.testBit_succ, Nat.testBit_succ,
        Nat.mul_div_cancel_left _ (by norm_num : 0 < 2),
        Nat.mul_div_cancel_left _ (by norm_num : 0 < 2),
        Nat.mul_div_cancel_left _ (by norm_num : 0 < 2), Nat.testBit_xor]

theorem xtime_xor (x y : Nat) : xtime (x ^^^ y) = xtime x ^^^ xtime y := by
  unfold xtime
  rw [Nat.testBit_xor, two_mul_xor]
  cases hx : x.testBit 7 <;> cases hy : y.testBit 7 <;>
    simp [Nat.xor_assoc, Nat.xor_comm, xor_left_comm]

theorem gfMulAux_xor (fuel : Nat) : ∀ x y b : Nat,
    gfMulAux fuel (x ^^^ y) b = gfMulAux fuel x b ^^^ gfMulAux fuel y b := by
  induction fuel with
  | zero => intro x y b; simp [gfMulAux]
  | succ n ih =>
      intro x y b
      simp only [gfMulAux, xtime_xor, ih]
      cases h : decide (b % 2 = 1) <;>
        simp_all [Nat.xor_assoc, Nat.xor_comm, xor_left_comm]

theorem gfMul_xor (x y b : Nat) :
    gfMul (x ^^^ y) b = gfMul x b ^^^ gfMul y b := gfMulAux_xor 8 x y b

theorem gfMul_xor4 (x y z w b : Nat) :
    gfMul (x ^^^ y ^^^ z ^^^ w) b =
      gfMul x b ^^^ gfMul y b ^^^ gfMul z b ^^^ gfMul w b := by
  rw [gfMul_xor, gfMul_xor, gfMul_xor]

theorem mixScalarI : ∀ x : Fin 256,
    gfMul (gfMul x.val 2) 14 ^^^ gfMul x.val 11 ^^^ gfMul x.val 13 ^^^
      gfMul (gfMul x.val 3) 9 = x.val := by decide

theorem mixScalarZ1 : ∀ x : Fin 256,
    gfMul (gfMul x.val 3) 14 ^^^ gfMul (gfMul x.val 2) 11 ^^^ gfMul x.val 13 ^^^
      gfMul x.val 9 = 0 := by decide

theorem mixScalarZ2 : ∀ x : Fin 256,
    gfMul x.val 14 ^^^ gfMul (gfMul x.val 3) 11 ^^^ gfMul (gfMul x.val 2) 13 ^^^
      gfMul x.val 9 = 0 := by decide

theorem mixScalarZ3 : ∀ x : Fin 256,
    gfMul x.val 14 ^^^ gfMul x.val 11 ^^^ gfMul (gfMul x.val 3) 13 ^^^
      gfMul (gfMul x.val 2) 9 = 0 := by decide

theorem sbox_entries_lt : ∀ x ∈ SBOX, x < 256 := by decide

theorem inv_sbox_entries_lt : ∀ x ∈ INV_SBOX, x < 256 := by decide

theorem inv_sbox_sbox_aux :
    ∀ b : Fin 256, INV_SBOX.getD (SBOX.getD b.val 0) 0 = b.val := by decide

theorem getD_lt_of_all {l : List Nat} {c : Nat} (h : ∀ x ∈ l, x < c)
    (h0 : 0 < c) (i : Nat) : l.getD i 0 < c := by
  rw [List.getD_eq_getElem?_getD]
  cases hx : l[i]? with
  | none => simpa using h0
  | some v =>
      have hv : v ∈ l := List.getElem?_mem hx
      simpa using h v hv

theorem sbox_getD_lt (b : Nat) : SBOX.getD b 0 < 256 :=
  getD_lt_of_all sbox_entries_lt (by norm_num) b

theorem inv_sbox_sbox {b : Nat} (hb : b < 256) :
    INV_SBOX.getD (SBOX.getD b 0) 0 = b := inv_sbox_sbox_aux ⟨b, hb⟩

theorem rcon_lt : ∀ i, RCON i < 256
  | 0 => by norm_num [RCON]
  | 1 => by norm_num [RCON]
  | n+2 => xtime_lt (rcon_lt (n+1))

/-! ## AES state and block transforms (src/crypto/aesCore.ts) -/

/-- The 4-row-by-4-column state matrix of aesCore.ts; field `sRC` is the byte
at row R, column C. -/
structure AESState where
  s00 : Nat
  s01 : Nat
  s02 : Nat
  s03 : Nat
  s10 : Nat
  s11 : Nat
  s12 : Nat
  s13 : Nat
  s20 : Nat
  s21 : Nat
  s22 : Nat
  s23 : Nat
  s30 : Nat
  s31 : Nat
  s32 : Nat
  s33 : Nat
  deriving Repr, DecidableEq

/-- All sixteen state bytes are in byte range. -/
def StateLt (s : AESState) : Prop :=
  s.s00 < 256 ∧ s.s01 < 256 ∧ s.s02 < 256 ∧ s.s03 < 256 ∧
  s.s10 < 256 ∧ s.s11 < 256 ∧ s.s12 < 256 ∧ s.s13 < 256 ∧
  s.s20 < 256 ∧ s.s21 < 256 ∧ s.s22 < 256 ∧ s.s23 < 256 ∧
  s.s30 < 256 ∧ s.s31 < 256 ∧ s.s32 < 256 ∧ s.s33 < 256

/-- subBytes of aesCore.ts: every byte replaced through the S-box. -/
def subBytes (s : AESState) : AESState :=
  ⟨SBOX.getD s.s00 0, SBOX.getD s.s01 0, SBOX.getD s.s02 0, SBOX.getD s.s03 0,
   SBOX.getD s.s10 0, SBOX.getD s.s11 0, SBOX.getD s.s12 0, SBOX.getD s.s13 0,
   SBOX.getD s.s20 0, SBOX.getD s.s21 0, SBOX.getD s.s22 0, SBOX.getD s.s23 0,
   SBOX.getD s.s30 0, SBOX.getD s.s31 0, SBOX.getD s.s32 0, SBOX.getD s.s33 0⟩

/-- invSubBytes of aesCore.ts: every byte replaced through the inverse S-box. -/
def invSubBytes (s : AESState) : AESState :=
  ⟨INV_SBOX.getD s.s00 0, INV_SBOX.getD s.s01 0, INV_SBOX.getD s.s02 0, INV_SBOX.getD s.s03 0,
   INV_SBOX.getD s.s10 0, INV_SBOX.getD s.s11 0, INV_SBOX.getD s.s12 0, INV_SBOX.getD s.s13 0,
   INV_SBOX.getD s.s20 0, INV_SBOX.getD s.s21 0, INV_SBOX.getD s.s22 0, INV_SBOX.getD s.s23 0,
   INV_SBOX.getD s.s30 0, INV_SBOX.getD s.s31 0, INV_SBOX.getD s.s32 0, INV_SBOX.getD s.s33 0⟩

/-- shiftRows of aesCore.ts: row r is rotated left by r positions, written as
the sixteen explicit assignments of the source. -/
def shiftRows (s : AESState) : AESState :=
  ⟨s.s00, s.s01, s.s02, s.s03,
   s.s11, s.s12, s.s13, s.s10,
   s.s22, s.s23, s.s20, s.s21,
   s.s33, s.s30, s.s31, s.s32⟩

/-- invShiftRows of aesCore.ts: row r is rotated right by r positions. -/
def invShiftRows (s : AESState) : AESState :=
  ⟨s.s00, s.s01, s.s02, s.s03,
   s.s13, s.s10, s.s11, s.s12,
   s.s22, s.s23, s.s20, s.s21,
   s.s31, s.s32, s.s33, s.s30⟩

/-- mixColumns of aesCore.ts: each column combined through the MULT_2/MULT_3
lookup tables, one source line per output byte. -/
def mixColumns (s : AESState) : AESState :=
  ⟨MULT_2 s.s00 ^^^ MULT_3 s.s10 ^^^ s.s20 ^^^ s.s30,
   MULT_2 s.s01 ^^^ MULT_3 s.s11 ^^^ s.s21 ^^^ s.s31,
   MULT_2 s.s02 ^^^ MULT_3 s.s12 ^^^ s.s22 ^^^ s.s32,
   MULT_2 s.s03 ^^^ MULT_3 s.s13 ^^^ s.s23 ^^^ s.s33,
   s.s00 ^^^ MULT_2 s.s10 ^^^ MULT_3 s.s20 ^^^ s.s30,
   s.s01 ^^^ MULT_2 s.s11 ^^^ MULT_3 s.s21 ^^^ s.s31,
   s.s02 ^^^ MULT_2 s.s12 ^^^ MULT_3 s.s22 ^^^ s.s32,
   s.s03 ^^^ MULT_2 s.s13 ^^^ MULT_3 s.s23 ^^^ s.s33,
   s.s00 ^^^ s.s10 ^^^ MULT_2 s.s20 ^^^ MULT_3 s.s30,
   s.s01 ^^^ s.s11 ^^^ MULT_2 s.s21 ^^^ MULT_3 s.s31,
   s.s02 ^^^ s.s12 ^^^ MULT_2 s.s22 ^^^ MULT_3 s.s32,
   s.s03 ^^^ s.s13 ^^^ MULT_2 s.s23 ^^^ MULT_3 s.s33,
   MULT_3 s.s00 ^^^ s.s10 ^^^ s.s20 ^^^ MULT_2 s.s30,
   MULT_3 s.s01 ^^^ s.s11 ^^^ s.s21 ^^^ MULT_2 s.s31,
   MULT_3 s.s02 ^^^ s.s12 ^^^ s.s22 ^^^ MULT_2 s.s32,
   MULT_3 s.s03 ^^^ s.s13 ^^^ s.s23 ^^^ MULT_2 s.s33⟩

/-- invMixColumns of aesCore.ts: the inverse column mix through the
MULT_9/11/13/14 tables. -/
def invMixColumns (s : AESState) : AESState :=
  ⟨MULT_14 s.s00 ^^^ MULT_11 s.s10 ^^^ MULT_13 s.s20 ^^^ MULT_9 s.s30,
   MULT_14 s.s01 ^^^ MULT_11 s.s11 ^^^ MULT_13 s.s21 ^^^ MULT_9 s.s31,
   MULT_14 s.s02 ^^^ MULT_11 s.s12 ^^^ MULT_13 s.s22 ^^^ MULT_9 s.s32,
   MULT_14 s.s03 ^^^ MULT_11 s.s13 ^^^ MULT_13 s.s23 ^^^ MULT_9 s.s33,
   MULT_9 s.s00 ^^^ MULT_14 s.s10 ^^^ MULT_11 s.s20 ^^^ MULT_13 s.s30,
   MULT_9 s.s01 ^^^ MULT_14 s.s11 ^^^ MULT_11 s.s21 ^^^ MULT_13 s.s31,
   MULT_9 s.s02 ^^^ MULT_14 s.s12 ^^^ MULT_11 s.s22 ^^^ MULT_13 s.s32,
   MULT_9 s.s03 ^^^ MULT_14 s.s13 ^^^ MULT_11 s.s23 ^^^ MULT_13 s.s33,
   MULT_13 s.s00 ^^^ MULT_9 s.s10 ^^^ MULT_14 s.s20 ^^^ MULT_11 s.s30,
   MULT_13 s.s01 ^^^ MULT_9 s.s11 ^^^ MULT_14 s.s21 ^^^ MULT_11 s.s31,
   MULT_13 s.s02 ^^^ MULT_9 s.s12 ^^^ MULT_14 s.s22 ^^^ MULT_11 s.s32,
   MULT_13 s.s03 ^^^ MULT_9 s.s13 ^^^ MULT_14 s.s23 ^^^ MULT_11 s.s33,
   MULT_11 s.s00 ^^^ MULT_13 s.s10 ^^^ MULT_9 s.s20 ^^^ MULT_14 s.s30,
   MULT_11 s.s01 ^^^ MULT_13 s.s11 ^^^ MULT_9 s.s21 ^^^ MULT_14 s.s31,
   MULT_11 s.s02 ^^^ MULT_13 s.s12 ^^^ MULT_9 s.s22 ^^^ MULT_14 s.s32,
   MULT_11 s.s03 ^^^ MULT_13 s.s13 ^^^ MULT_9 s.s23 ^^^ MULT_14 s.s33⟩

/-- addRoundKey of aesCore.ts: the flat 16-byte round key is reinterpreted
column-major (keyMatrix[r][c] = roundKey[4c + r]) and XORed into the state. -/
def addRoundKey (s : AESState) (rk : List Nat) : AESState :=
  ⟨s.s00 ^^^ rk.getD 0 0, s.s01 ^^^ rk.getD 4 0, s.s02 ^^^ rk.getD 8 0, s.s03 ^^^ rk.getD 12 0,
   s.s10 ^^^ rk.getD 1 0, s.s11 ^^^ rk.getD 5 0, s.s12 ^^^ rk.getD 9 0, s.s13 ^^^ rk.getD 13 0,
   s.s20 ^^^ rk.getD 2 0, s.s21 ^^^ rk.getD 6 0, s.s22 ^^^ rk.getD 10 0, s.s23 ^^^ rk.getD 14 0,
   s.s30 ^^^ rk.getD 3 0, s.s31 ^^^ rk.getD 7 0, s.s32 ^^^ rk.getD 11 0, s.s33 ^^^ rk.getD 15 0⟩

/-- bytesToState of aesCore.ts: requires exactly 16 bytes (else the source
throws), filling column-major: state[r][c] = bytes[4c + r]. -/
def bytesToState (bytes : List Nat) : Except String AESState :=
  if bytes.length = 16 then
    .ok ⟨bytes.getD 0 0, bytes.getD 4 0, bytes.getD 8 0, bytes.getD 12 0,
         bytes.getD 1 0, bytes.getD 5 0, bytes.getD 9 0, bytes.getD 13 0,
         bytes.getD 2 0, bytes.getD 6 0, bytes.getD 10 0, bytes.getD 14 0,
         bytes.getD 3 0, bytes.getD 7 0, bytes.getD 11 0, bytes.getD 15 0⟩
  else
    .error ("Invalid block size: " ++ toString bytes.length ++ " bytes. Must be 16 bytes.")

/-- stateToBytes of aesCore.ts: read the state back column-major. -/
def stateToBytes (s : AESState) : List Nat :=
  [s.s00, s.s10, s.s20, s.s30,
   s.s01, s.s11, s.s21, s.s31,
   s.s02, s.s12, s.s22, s.s32,
   s.s03, s.s13, s.s23, s.s33]

/-- aesEncryptionRound of aesCore.ts: SubBytes, ShiftRows, MixColumns (skipped
in the final round), AddRoundKey. -/
def aesEncryptionRound (s : AESState) (rk : List Nat) (isFinalRound : Bool) : AESState :=
  let s1 := subBytes s
  let s2 := shiftRows s1
  let s3 := if isFinalRound then s2 else mixColumns s2
  addRoundKey s3 rk

/-- aesDecryptionRound of aesCore.ts: InvShiftRows, InvSubBytes, AddRoundKey,
InvMixColumns (skipped in the first round). -/
def aesDecryptionRound (s : AESState) (rk : List Nat) (isFirstRound : Bool) : AESState :=
  let s1 := invShiftRows s
  let s2 := invSubBytes s1
  let s3 := addRoundKey s2 rk
  if isFirstRound then s3 else invMixColumns s3

/-! ## Key expansion (src/crypto/keyExpansion.ts) -/

/-- One 32-bit word as a 4-byte list; `buildWords key Nk n` is the first n
words of the expanded-key word array `w` of keyExpansion.ts: the first Nk
words copy the key, each later word is derived from w[i-1] and w[i-Nk]
by the three cases of the source. -/
def buildWords (key : List Nat) (Nk : Nat) : Nat → List (List Nat)
  | 0 => []
  | n+1 =>
      let prev := buildWords key Nk n
      let w :=
        if n < Nk then
          [key.getD (4*n) 0, key.getD (4*n+1) 0, key.getD (4*n+2) 0, key.getD (4*n+3) 0]
        else
          let temp := prev.getD (n-1) []
          if n % Nk = 0 then
            let rotWord := [temp.getD 1 0, temp.getD 2 0, temp.getD 3 0, temp.getD 0 0]
            let subWord := rotWord.map (fun b => SBOX.getD b 0)
            let subWordR := [subWord.getD 0 0 ^^^ RCON (n / Nk),
                             subWord.getD 1 0, subWord.getD 2 0, subWord.getD 3 0]
            List.zipWith (fun a b => a ^^^ b) subWordR (prev.getD (n - Nk) [])
          else if 6 < Nk ∧ n % Nk = 4 then
            List.zipWith (fun a b => a ^^^ b) (temp.map (fun b => SBOX.getD b 0))
              (prev.getD (n - Nk) [])
          else
            List.zipWith (fun a b => a ^^^ b) temp (prev.getD (n - Nk) [])
      prev ++ [w]

/-- NUM_ROUNDS of aesConstants.ts, modelled from the spec: 10/12/14 rounds
for 16/24/32-byte keys. -/
def numRoundsFor (keyLengthBytes : Nat) : Nat :=
  if keyLengthBytes = 16 then 10 else if keyLengthBytes = 24 then 12 else 14

/-- keyExpansion of keyExpansion.ts: validates the key length, expands to
Nb*(Nr+1) words, and regroups every 4 consecutive words into one flat
16-byte round key. -/
def keyExpansion (key : List Nat) : Except String (List (List Nat)) :=
  let keyLengthBytes := key.length
  if keyLengthBytes = 16 ∨ keyLengthBytes = 24 ∨ keyLengthBytes = 32 then
    let numRounds := numRoundsFor keyLengthBytes
    let Nk := keyLengthBytes / 4
    let expandedKeyWords := 4 * (numRounds + 1)
    let w := buildWords key Nk expandedKeyWords
    .ok ((List.range (numRounds + 1)).map (fun i =>
      w.getD (4*i) [] ++ w.getD (4*i+1) [] ++ w.getD (4*i+2) [] ++ w.getD (4*i+3) []))
  else
    .error ("Invalid key length: " ++ toString keyLengthBytes ++
      " bytes. Must be 16, 24, or 32 bytes.")

/-! ## Single-block encryption and decryption (src/crypto/aesCore.ts) -/

/-- The round loop of aesEncryptBlock: initial AddRoundKey with round key 0,
the main rounds 1..numRounds-1, then the final round without MixColumns. -/
def encryptStateWithKeys (rks : List (List Nat)) (st : AESState) : AESState :=
  let numRounds := rks.length - 1
  let st0 := addRoundKey st (rks.getD 0 [])
  let stMid := ((rks.drop 1).take (numRounds - 1)).foldl
    (fun s rk => aesEncryptionRound s rk false) st0
  aesEncryptionRound stMid (rks.getD numRounds []) true

/-- The round loop of aesDecryptBlock: initial AddRoundKey with round key
numRounds, the main rounds numRounds-1 down to 1, then the final round
without InvMixColumns. -/
def decryptStateWithKeys (rks : List (List Nat)) (st : AESState) : AESState :=
  let numRounds := rks.length - 1
  let st0 := addRoundKey st (rks.getD numRounds [])
  let stMid := (((rks.drop 1).take (numRounds - 1)).reverse).foldl
    (fun s rk => aesDecryptionRound s rk false) st0
  aesDecryptionRound stMid (rks.getD 0 []) true

/-- aesEncryptBlock of aesCore.ts. -/
def aesEncryptBlock (block key : List Nat) : Except String (List Nat) := do
  let rks ← keyExpansion key
  let st ← bytesToState block
  .ok (stateToBytes (encryptStateWithKeys rks st))

/-- aesDecryptBlock of aesCore.ts. -/
def aesDecryptBlock (block key : List Nat) : Except String (List Nat) := do
  let rks ← keyExpansion key
  let st ← bytesToState block
  .ok (stateToBytes (decryptStateWithKeys rks st))

/-! ## Bounds and inverse facts for the block transforms -/

/-- All bytes of a (round-)key byte list are in byte range. -/
def RkLt (rk : List Nat) : Prop := ∀ x ∈ rk, x < 256

theorem subBytes_lt (s : AESState) : StateLt (subBytes s) :=
  ⟨sbox_getD_lt _, sbox_getD_lt _, sbox_getD_lt _, sbox_getD_lt _,
   sbox_getD_lt _, sbox_getD_lt _, sbox_getD_lt _, sbox_getD_lt _,
   sbox_getD_lt _, sbox_getD_lt _, sbox_getD_lt _, sbox_getD_lt _,
   sbox_getD_lt _, sbox_getD_lt _, sbox_getD_lt _, sbox_getD_lt _⟩

theorem shiftRows_lt {s : AESState} (h : StateLt s) : StateLt (shiftRows s) := by
  obtain ⟨h00, h01, h02, h03, h10, h11, h12, h13, h20, h21, h22, h23, h30, h31, h32, h33⟩ := h
  exact ⟨h00, h01, h02, h03, h11, h12, h13, h10, h22, h23, h20, h21, h33, h30, h31, h32⟩

theorem mixb0 {a b c d : Nat} (ha : a < 256) (hb : b < 256) (hc : c < 256) (hd : d < 256) :
    MULT_2 a ^^^ MULT_3 b ^^^ c ^^^ d < 256 :=
  xor_lt_256 (xor_lt_256 (xor_lt_256 (gfMul_lt ha 2) (gfMul_lt hb 3)) hc) hd

theorem mixb1 {a b c d : Nat} (ha : a < 256) (hb : b < 256) (hc : c < 256) (hd : d < 256) :
    a ^^^ MULT_2 b ^^^ MULT_3 c ^^^ d < 256 :=
  xor_lt_256 (xor_lt_256 (xor_lt_256 ha (gfMul_lt hb 2)) (gfMul_lt hc 3)) hd

theorem mixb2 {a b c d : Nat} (ha : a < 256) (hb : b < 256) (hc : c < 256) (hd : d < 256) :
    a ^^^ b ^^^ MULT_2 c ^^^ MULT_3 d < 256 :=
  xor_lt_256 (xor_lt_256 (xor_lt_256 ha hb) (gfMul_lt hc 2)) (gfMul_lt hd 3)

theorem mixb3 {a b c d : Nat} (ha : a < 256) (hb : b < 256) (hc : c < 256) (hd : d < 256) :
    MULT_3 a ^^^ b ^^^ c ^^^ MULT_2 d < 256 :=
  xor_lt_256 (xor_lt_256 (xor_lt_256 (gfMul_lt ha 3) hb) hc) (gfMul_lt hd 2)

theorem mixColumns_lt {s : AESState} (h : StateLt s) : StateLt (mixColumns s) := by
  obtain ⟨h00, h01, h02, h03, h10, h11, h12, h13, h20, h21, h22, h23, h30, h31, h32, h33⟩ := h
  exact ⟨mixb0 h00 h10 h20 h30, mixb0 h01 h11 h21 h31, mixb0 h02 h12 h22 h32, mixb0 h03 h13 h23 h33,
         mixb1 h00 h10 h20 h30, mixb1 h01 h11 h21 h31, mixb1 h02 h12 h22 h32, mixb1 h03 h13 h23 h33,
         mixb2 h00 h10 h20 h30, mixb2 h01 h11 h21 h31, mixb2 h02 h12 h22 h32, mixb2 h03 h13 h23 h33,
         mixb3 h00 h10 h20 h30, mixb3 h01 h11 h21 h31, mixb3 h02 h12 h22 h32, mixb3 h03 h13 h23 h33⟩

theorem rk_getD_lt {rk : List Nat} (h : RkLt rk) (i : Nat) : rk.getD i 0 < 256 :=
  getD_lt_of_all h (by norm_num) i

theorem addRoundKey_lt {s : AESState} {rk : List Nat} (h : StateLt s) (hrk : RkLt rk) :
    StateLt (addRoundKey s rk) := by
  obtain ⟨h00, h01, h02, h03, h10, h11, h12, h13, h20, h21, h22, h23, h30, h31, h32, h33⟩ := h
  exact ⟨xor_lt_256 h00 (rk_getD_lt hrk _), xor_lt_256 h01 (rk_getD_lt hrk _),
         xor_lt_256 h02 (rk_getD_lt hrk _), xor_lt_256 h03 (rk_getD_lt hrk _),
         xor_lt_256 h10 (rk_getD_lt hrk _), xor_lt_256 h11 (rk_getD_lt hrk _),
         xor_lt_256 h12 (rk_getD_lt hrk _), xor_lt_256 h13 (rk_getD_lt hrk _),
         xor_lt_256 h20 (rk_getD_lt hrk _), xor_lt_256 h21 (rk_getD_lt hrk _),
         xor_lt_256 h22 (rk_getD_lt hrk _), xor_lt_256 h23 (rk_getD_lt hrk _),
         xor_lt_256 h30 (rk_getD_lt hrk _), xor_lt_256 h31 (rk_getD_lt hrk _),
         xor_lt_256 h32 (rk_getD_lt hrk _), xor_lt_256 h33 (rk_getD_lt hrk _)⟩

theorem aesEncryptionRound_lt (s : AESState) {rk : List Nat} (hrk : RkLt rk) (b : Bool) :
    StateLt (aesEncryptionRound s rk b) := by
  unfold aesEncryptionRound
  cases b with
  | true => exact addRoundKey_lt (shiftRows_lt (subBytes_lt s)) hrk
  | false => exact addRoundKey_lt (mixColumns_lt (shiftRows_lt (subBytes_lt s))) hrk

theorem invShiftRows_shiftRows (s : AESState) : invShiftRows (shiftRows s) = s := rfl

theorem invSubBytes_subBytes {s : AESState} (h : StateLt s) : invSubBytes (subBytes s) = s := by
  obtain ⟨h00, h01, h02, h03, h10, h11, h12, h13, h20, h21, h22, h23, h30, h31, h32, h33⟩ := h
  cases s
  simp only [subBytes, invSubBytes, AESState.mk.injEq]
  exact ⟨inv_sbox_sbox h00, inv_sbox_sbox h01, inv_sbox_sbox h02, inv_sbox_sbox h03,
         inv_sbox_sbox h10, inv_sbox_sbox h11, inv_sbox_sbox h12, inv_sbox_sbox h13,
         inv_sbox_sbox h20, inv_sbox_sbox h21, inv_sbox_sbox h22, inv_sbox_sbox h23,
         inv_sbox_sbox h30, inv_sbox_sbox h31, inv_sbox_sbox h32, inv_sbox_sbox h33⟩

theorem addRoundKey_addRoundKey (s : AESState) (rk : List Nat) :
    addRoundKey (addRoundKey s rk) rk = s := by
  cases s
  simp [addRoundKey, Nat.xor_cancel_right]

theorem invMixRow0 {a b c d : Nat} (ha : a < 256) (hb : b < 256) (hc : c < 256) (hd : d < 256) :
    MULT_14 (MULT_2 a ^^^ MULT_3 b ^^^ c ^^^ d) ^^^
    MULT_11 (a ^^^ MULT_2 b ^^^ MULT_3 c ^^^ d) ^^^
    MULT_13 (a ^^^ b ^^^ MULT_2 c ^^^ MULT_3 d) ^^^
    MULT_9 (MULT_3 a ^^^ b ^^^ c ^^^ MULT_2 d) = a := by
  have hA : gfMul (gfMul a 2) 14 ^^^ gfMul a 11 ^^^ gfMul a 13 ^^^ gfMul (gfMul a 3) 9 = a :=
    mixScalarI ⟨a, ha⟩
  have hB : gfMul (gfMul b 3) 14 ^^^ gfMul (gfMul b 2) 11 ^^^ gfMul b 13 ^^^ gfMul b 9 = 0 :=
    mixScalarZ1 ⟨b, hb⟩
  have hC : gfMul c 14 ^^^ gfMul (gfMul c 3) 11 ^^^ gfMul (gfMul c 2) 13 ^^^ gfMul c 9 = 0 :=
    mixScalarZ2 ⟨c, hc⟩
  have hD : gfMul d 14 ^^^ gfMul d 11 ^^^ gfMul (gfMul d 3) 13 ^^^ gfMul (gfMul d 2) 9 = 0 :=
    mixScalarZ3 ⟨d, hd⟩
  simp only [MULT_2, MULT_3, MULT_9, MULT_11, MULT_13, MULT_14, gfMul_xor4]
  calc gfMul (gfMul a 2) 14 ^^^ gfMul (gfMul b 3) 14 ^^^ gfMul c 14 ^^^ gfMul d 14 ^^^
        (gfMul a 11 ^^^ gfMul (gfMul b 2) 11 ^^^ gfMul (gfMul c 3) 11 ^^^ gfMul d 11) ^^^
        (gfMul a 13 ^^^ gfMul b 13 ^^^ gfMul (gfMul c 2) 13 ^^^ gfMul (gfMul d 3) 13) ^^^
        (gfMul (gfMul a 3) 9 ^^^ gfMul b 9 ^^^ gfMul c 9 ^^^ gfMul (gfMul d 2) 9)
      = (gfMul (gfMul a 2) 14 ^^^ gfMul a 11 ^^^ gfMul a 13 ^^^ gfMul (gfMul a 3) 9) ^^^
        (gfMul (gfMul b 3) 14 ^^^ gfMul (gfMul b 2) 11 ^^^ gfMul b 13 ^^^ gfMul b 9) ^^^
        (gfMul c 14 ^^^ gfMul (gfMul c 3) 11 ^^^ gfMul (gfMul c 2) 13 ^^^ gfMul c 9) ^^^
        (gfMul d 14 ^^^ gfMul d 11 ^^^ gfMul (gfMul d 3) 13 ^^^ gfMul (gfMul d 2) 9) := by
        simp [Nat.xor_assoc, Nat.xor_comm, xor_left_comm]
    _ = a := by rw [hA, hB, hC, hD]; simp

theorem invMixRow1 {a b c d : Nat} (ha : a < 256) (hb : b < 256) (hc : c < 256) (hd : d < 256) :
    MULT_9 (MULT_2 a ^^^ MULT_3 b ^^^ c ^^^ d) ^^^
    MULT_14 (a ^^^ MULT_2 b ^^^ MULT_3 c ^^^ d) ^^^
    MULT_11 (a ^^^ b ^^^ MULT_2 c ^^^ MULT_3 d) ^^^
    MULT_13 (MULT_3 a ^^^ b ^^^ c ^^^ MULT_2 d) = b := by
  have hA : gfMul a 14 ^^^ gfMul a 11 ^^^ gfMul (gfMul a 3) 13 ^^^ gfMul (gfMul a 2) 9 = 0 :=
    mixScalarZ3 ⟨a, ha⟩
  have hB : gfMul (gfMul b 2) 14 ^^^ gfMul b 11 ^^^ gfMul b 13 ^^^ gfMul (gfMul b 3) 9 = b :=
    mixScalarI ⟨b, hb⟩
  have hC : gfMul (gfMul c 3) 14 ^^^ gfMul (gfMul c 2) 11 ^^^ gfMul c 13 ^^^ gfMul c 9 = 0 :=
    mixScalarZ1 ⟨c, hc⟩
  have hD : gfMul d 14 ^^^ gfMul (gfMul d 3) 11 ^^^ gfMul (gfMul d 2) 13 ^^^ gfMul d 9 = 0 :=
    mixScalarZ2 ⟨d, hd⟩
  simp only [MULT_2, MULT_3, MULT_9, MULT_11, MULT_13, MULT_14, gfMul_xor4]
  calc gfMul (gfMul a 2) 9 ^^^ gfMul (gfMul b 3) 9 ^^^ gfMul c 9 ^^^ gfMul d 9 ^^^
        (gfMul a 14 ^^^ gfMul (gfMul b 2) 14 ^^^ gfMul (gfMul c 3) 14 ^^^ gfMul d 14) ^^^
        (gfMul a 11 ^^^ gfMul b 11 ^^^ gfMul (gfMul c 2) 11 ^^^ gfMul (gfMul d 3) 11) ^^^
        (gfMul (gfMul a 3) 13 ^^^ gfMul b 13 ^^^ gfMul c 13 ^^^ gfMul (gfMul d 2) 13)
      = (gfMul a 14 ^^^ gfMul a 11 ^^^ gfMul (gfMul a 3) 13 ^^^ gfMul (gfMul a 2) 9) ^^^
        (gfMul (gfMul b 2) 14 ^^^ gfMul b 11 ^^^ gfMul b 13 ^^^ gfMul (gfMul b 3) 9) ^^^
        (gfMul (gfMul c 3) 14 ^^^ gfMul (gfMul c 2) 11 ^^^ gfMul c 13 ^^^ gfMul c 9) ^^^
        (gfMul d 14 ^^^ gfMul (gfMul d 3) 11 ^^^ gfMul (gfMul d 2) 13 ^^^ gfMul d 9) := by
        simp [Nat.xor_assoc, Nat.xor_comm, xor_left_comm]
    _ = b := by rw [hA, hB, hC, hD]; simp

theorem invMixRow2 {a b c d : Nat} (ha : a < 256) (hb : b < 256) (hc : c < 256) (hd : d < 256) :
    MULT_13 (MULT_2 a ^^^ MULT_3 b ^^^ c ^^^ d) ^^^
    MULT_9 (a ^^^ MULT_2 b ^^^ MULT_3 c ^^^ d) ^^^
    MULT_14 (a ^^^ b ^^^ MULT_2 c ^^^ MULT_3 d) ^^^
    MULT_11 (MULT_3 a ^^^ b ^^^ c ^^^ MULT_2 d) = c := by
  have hA : gfMul a 14 ^^^ gfMul (gfMul a 3) 11 ^^^ gfMul (gfMul a 2) 13 ^^^ gfMul a 9 = 0 :=
    mixScalarZ2 ⟨a, ha⟩
  have hB : gfMul b 14 ^^^ gfMul b 11 ^^^ gfMul (gfMul b 3) 13 ^^^ gfMul (gfMul b 2) 9 = 0 :=
    mixScalarZ3 ⟨b, hb⟩
  have hC : gfMul (gfMul c 2) 14 ^^^ gfMul c 11 ^^^ gfMul c 13 ^^^ gfMul (gfMul c 3) 9 = c :=
    mixScalarI ⟨c, hc⟩
  have hD : gfMul (gfMul d 3) 14 ^^^ gfMul (gfMul d 2) 11 ^^^ gfMul d 13 ^^^ gfMul d 9 = 0 :=
    mixScalarZ1 ⟨d, hd⟩
  simp only [MULT_2, MULT_3, MULT_9, MULT_11, MULT_13, MULT_14, gfMul_xor4]
  calc gfMul (gfMul a 2) 13 ^^^ gfMul (gfMul b 3) 13 ^^^ gfMul c 13 ^^^ gfMul d 13 ^^^
        (gfMul a 9 ^^^ gfMul (gfMul b 2) 9 ^^^ gfMul (gfMul c 3) 9 ^^^ gfMul d 9) ^^^
        (gfMul a 14 ^^^ gfMul b 14 ^^^ gfMul (gfMul c 2) 14 ^^^ gfMul (gfMul d 3) 14) ^^^
        (gfMul (gfMul a 3) 11 ^^^ gfMul b 11 ^^^ gfMul c 11 ^^^ gfMul (gfMul d 2) 11)
      = (gfMul a 14 ^^^ gfMul (gfMul a 3) 11 ^^^ gfMul (gfMul a 2) 13 ^^^ gfMul a 9) ^^^
        (gfMul b 14 ^^^ gfMul b 11 ^^^ gfMul (gfMul b 3) 13 ^^^ gfMul (gfMul b 2) 9) ^^^
        (gfMul (gfMul c 2) 14 ^^^ gfMul c 11 ^^^ gfMul c 13 ^^^ gfMul (gfMul c 3) 9) ^^^
        (gfMul (gfMul d 3) 14 ^^^ gfMul (gfMul d 2) 11 ^^^ gfMul d 13 ^^^ gfMul d 9) := by
        simp [Nat.xor_assoc, Nat.xor_comm, xor_left_comm]
    _ = c := by rw [hA, hB, hC, hD]; simp

theorem invMixRow3 {a b c d : Nat} (ha : a < 256) (hb : b < 256) (hc : c < 256) (hd : d < 256) :
    MULT_11 (MULT_2 a ^^^ MULT_3 b ^^^ c ^^^ d) ^^^
    MULT_13 (a ^^^ MULT_2 b ^^^ MULT_3 c ^^^ d) ^^^
    MULT_9 (a ^^^ b ^^^ MULT_2 c ^^^ MULT_3 d) ^^^
    MULT_14 (MULT_3 a ^^^ b ^^^ c ^^^ MULT_2 d) = d := by
  have hA : gfMul (gfMul a 3) 14 ^^^ gfMul (gfMul a 2) 11 ^^^ gfMul a 13 ^^^ gfMul a 9 = 0 :=
    mixScalarZ1 ⟨a, ha⟩
  have hB : gfMul b 14 ^^^ gfMul (gfMul b 3) 11 ^^^ gfMul (gfMul b 2) 13 ^^^ gfMul b 9 = 0 :=
    mixScalarZ2 ⟨b, hb⟩
  have hC : gfMul c 14 ^^^ gfMul c 11 ^^^ gfMul (gfMul c 3) 13 ^^^ gfMul (gfMul c 2) 9 = 0 :=
    mixScalarZ3 ⟨c, hc⟩
  have hD : gfMul (gfMul d 2) 14 ^^^ gfMul d 11 ^^^ gfMul d 13 ^^^ gfMul (gfMul d 3) 9 = d :=
    mixScalarI ⟨d, hd⟩
  simp only [MULT_2, MULT_3, MULT_9, MULT_11, MULT_13, MULT_14, gfMul_xor4]
  calc gfMul (gfMul a 2) 11 ^^^ gfMul (gfMul b 3) 11 ^^^ gfMul c 11 ^^^ gfMul d 11 ^^^
        (gfMul a 13 ^^^ gfMul (gfMul b 2) 13 ^^^ gfMul (gfMul c 3) 13 ^^^ gfMul d 13) ^^^
        (gfMul a 9 ^^^ gfMul b 9 ^^^ gfMul (gfMul c 2) 9 ^^^ gfMul (gfMul d 3) 9) ^^^
        (gfMul (gfMul a 3) 14 ^^^ gfMul b 14 ^^^ gfMul c 14 ^^^ gfMul (gfMul d 2) 14)
      = (gfMul (gfMul a 3) 14 ^^^ gfMul (gfMul a 2) 11 ^^^ gfMul a 13 ^^^ gfMul a 9) ^^^
        (gfMul b 14 ^^^ gfMul (gfMul b 3) 11 ^^^ gfMul (gfMul b 2) 13 ^^^ gfMul b 9) ^^^
        (gfMul c 14 ^^^ gfMul c 11 ^^^ gfMul (gfMul c 3) 13 ^^^ gfMul (gfMul c 2) 9) ^^^
        (gfMul (gfMul d 2) 14 ^^^ gfMul d 11 ^^^ gfMul d 13 ^^^ gfMul (gfMul d 3) 9) := by
        simp [Nat.xor_assoc, Nat.xor_comm, xor_left_comm]
    _ = d := by rw [hA, hB, hC, hD]; simp

theorem invMixColumns_mixColumns {s : AESState} (h : StateLt s) :
    invMixColumns (mixColumns s) = s := by
  obtain ⟨h00, h01, h02, h03, h10, h11, h12, h13, h20, h21, h22, h23, h30, h31, h32, h33⟩ := h
  cases s
  simp only [mixColumns, invMixColumns, AESState.mk.injEq]
  exact ⟨invMixRow0 h00 h10 h20 h30, invMixRow0 h01 h11 h21 h31,
         invMixRow0 h02 h12 h22 h32, invMixRow0 h03 h13 h23 h33,
         invMixRow1 h00 h10 h20 h30, invMixRow1 h01 h11 h21 h31,
         invMixRow1 h02 h12 h22 h32, invMixRow1 h03 h13 h23 h33,
         invMixRow2 h00 h10 h20 h30, invMixRow2 h01 h11 h21 h31,
         invMixRow2 h02 h12 h22 h32, invMixRow2 h03 h13 h23 h33,
         invMixRow3 h00 h10 h20 h30, invMixRow3 h01 h11 h21 h31,
         invMixRow3 h02 h12 h22 h32, invMixRow3 h03 h13 h23 h33⟩

/-! ## Round-level and block-level cancellation -/

theorem aesEncryptionRound_false (s : AESState) (rk : List Nat) :
    aesEncryptionRound s rk false = addRoundKey (mixColumns (shiftRows (subBytes s))) rk := rfl

theorem aesEncryptionRound_true (s : AESState) (rk : List Nat) :
    aesEncryptionRound s rk true = addRoundKey (shiftRows (subBytes s)) rk := rfl

theorem aesDecryptionRound_false (s : AESState) (rk : List Nat) :
    aesDecryptionRound s rk false = invMixColumns (addRoundKey (invSubBytes (invShiftRows s)) rk) := rfl

theorem aesDecryptionRound_true (s : AESState) (rk : List Nat) :
    aesDecryptionRound s rk true = addRoundKey (invSubBytes (invShiftRows s)) rk := rfl

theorem round_cancel {k : List Nat} (hk : RkLt k) (m : AESState) :
    aesDecryptionRound (shiftRows (subBytes (aesEncryptionRound m k false))) k false
      = shiftRows (subBytes m) := by
  rw [aesDecryptionRound_false, invShiftRows_shiftRows,
    invSubBytes_subBytes (aesEncryptionRound_lt m hk false), aesEncryptionRound_false,
    addRoundKey_addRoundKey, invMixColumns_mixColumns (shiftRows_lt (subBytes_lt m))]

theorem fold_cancel (L : List (List Nat)) (hL : ∀ k ∈ L, RkLt k) (st : AESState) :
    List.foldl (fun s rk => aesDecryptionRound s rk false)
      (shiftRows (subBytes (List.foldl (fun s rk => aesEncryptionRound s rk false) st L)))
      L.reverse = shiftRows (subBytes st) := by
  induction L using List.reverseRecOn generalizing st with
  | nil => simp
  | append_singleton L' k ih =>
      have hk : RkLt k := hL k (by simp)
      have hL' : ∀ j ∈ L', RkLt j := fun j hj => hL j (by simp [hj])
      rw [List.foldl_append, List.reverse_append]
      simp only [List.reverse_singleton, List.singleton_append, List.foldl_cons, List.foldl]
      rw [round_cancel hk]
      exact ih hL' st

theorem encryptStateWithKeys_decomp (k0 kn : List Nat) (mid : List (List Nat)) (st : AESState) :
    encryptStateWithKeys (k0 :: (mid ++ [kn])) st =
      aesEncryptionRound
        (mid.foldl (fun s rk => aesEncryptionRound s rk false) (addRoundKey st k0))
        kn true := by
  simp only [encryptStateWithKeys, decryptStateWithKeys, List.length_cons,
    List.length_append, List.length_singleton, Nat.add_sub_cancel,
    List.length_nil, Nat.zero_add, List.drop_succ_cons, List.drop_zero,
    List.take_left, List.getD_cons_succ, List.getD_cons_zero,
    List.getD_append_right, le_refl, Nat.sub_self]

theorem decryptStateWithKeys_decomp (k0 kn : List Nat) (mid : List (List Nat)) (st : AESState) :
    decryptStateWithKeys (k0 :: (mid ++ [kn])) st =
      aesDecryptionRound
        (mid.reverse.foldl (fun s rk => aesDecryptionRound s rk false) (addRoundKey st kn))
        k0 true := by
  simp only [encryptStateWithKeys, decryptStateWithKeys, List.length_cons,
    List.length_append, List.length_singleton, Nat.add_sub_cancel,
    List.length_nil, Nat.zero_add, List.drop_succ_cons, List.drop_zero,
    List.take_left, List.getD_cons_succ, List.getD_cons_zero,
    List.getD_append_right, le_refl, Nat.sub_self]

theorem state_roundtrip {k0 kn : List Nat} {mid : List (List Nat)}
    (hk0 : RkLt k0) (hmid : ∀ k ∈ mid, RkLt k)
    {st : AESState} (hst : StateLt st) :
    decryptStateWithKeys (k0 :: (mid ++ [kn]))
      (encryptStateWithKeys (k0 :: (mid ++ [kn])) st) = st := by
  rw [encryptStateWithKeys_decomp, decryptStateWithKeys_decomp,
    aesEncryptionRound_true, addRoundKey_addRoundKey, fold_cancel mid hmid,
    aesDecryptionRound_true, invShiftRows_shiftRows,
    invSubBytes_subBytes (addRoundKey_lt hst hk0), addRoundKey_addRoundKey]

/-! ## Structural facts about keyExpansion -/

theorem buildWords_length (key : List Nat) (Nk : Nat) :
    ∀ n, (buildWords key Nk n).length = n := by
  intro n
  induction n with
  | zero => rfl
  | succ m ih => simp [buildWords, ih]

theorem getD_mem_of_lt {α : Type} {l : List α} {i : Nat} (h : i < l.length) (d : α) :
    l.getD i d ∈ l := by
  rw [List.getD_eq_getElem l d h]
  exact List.getElem_mem h

theorem zipWith_xor_lt : ∀ (l1 l2 : List Nat), (∀ a ∈ l1, a < 256) → (∀ b ∈ l2, b < 256) →
    ∀ x ∈ List.zipWith (fun a b => a ^^^ b) l1 l2, x < 256 := by
  intro l1
  induction l1 with
  | nil => intro l2 _ _ x hx; simp at hx
  | cons a t ih =>
      intro l2 h1 h2 x hx
      cases l2 with
      | nil => simp at hx
      | cons b t2 =>
          simp only [List.zipWith_cons_cons, List.mem_cons] at hx
          rcases hx with rfl | hx
          · exact xor_lt_256 (h1 a (by simp)) (h2 b (by simp))
          · exact ih t2 (fun y hy => h1 y (by simp [hy])) (fun y hy => h2 y (by simp [hy])) x hx

theorem zipWith_xor_length (l1 l2 : List Nat) :
    (List.zipWith (fun a b => a ^^^ b) l1 l2).length = min l1.length l2.length :=
  List.length_zipWith _ _ _

theorem mem_word_getD {l : List (List Nat)} {P : Nat → Prop}
    (h : ∀ w ∈ l, ∀ x ∈ w, P x) (i : Nat) : ∀ x ∈ l.getD i [], P x := by
  rw [List.getD_eq_getElem?_getD]
  cases hx : l[i]? with
  | none => simp
  | some w => simpa using h w (List.getElem?_mem hx)

theorem buildWords_bytes_lt {key : List Nat} (hkey : ∀ x ∈ key, x < 256)
    {Nk : Nat} (_hNk : 0 < Nk) :
    ∀ n, ∀ w ∈ buildWords key Nk n, ∀ x ∈ w, x < 256 := by
  intro n
  induction n with
  | zero => simp [buildWords]
  | succ m ih =>
      intro w hw
      rw [buildWords] at hw
      simp only [List.mem_append, List.mem_singleton] at hw
      rcases hw with hw | rfl
      · exact ih w hw
      · split
        · intro x hx
          simp only [List.mem_cons, List.not_mem_nil, or_false] at hx
          rcases hx with rfl | rfl | rfl | rfl <;>
            exact getD_lt_of_all hkey (by norm_num) _
        · split
          · refine zipWith_xor_lt _ _ ?_ (mem_word_getD ih _)
            intro x hx
            simp only [List.mem_cons, List.not_mem_nil, or_false] at hx
            have hsub : ∀ y ∈ ((buildWords key Nk m).getD (m-1) []).map
                (fun b => SBOX.getD b 0), y < 256 := by
              intro y hy
              simp only [List.mem_map] at hy
              obtain ⟨b, _, rfl⟩ := hy
              exact sbox_getD_lt b
            have hsub4 : ∀ i, ([((buildWords key Nk m).getD (m-1) []).getD 1 0,
                ((buildWords key Nk m).getD (m-1) []).getD 2 0,
                ((buildWords key Nk m).getD (m-1) []).getD 3 0,
                ((buildWords key Nk m).getD (m-1) []).getD 0 0].map
                (fun b => SBOX.getD b 0)).getD i 0 < 256 := by
              intro i
              refine getD_lt_of_all ?_ (by norm_num) i
              intro y hy
              simp only [List.mem_map] at hy
              obtain ⟨b, _, rfl⟩ := hy
              exact sbox_getD_lt b
            rcases hx with rfl | rfl | rfl | rfl
            · exact xor_lt_256 (hsub4 0) (rcon_lt _)
            · exact hsub4 1
            · exact hsub4 2
            · exact hsub4 3
          · split
            · refine zipWith_xor_lt _ _ ?_ (mem_word_getD ih _)
              intro y hy
              simp only [List.mem_map] at hy
              obtain ⟨b, _, rfl⟩ := hy
              exact sbox_getD_lt b
            · exact zipWith_xor_lt _ _ (mem_word_getD ih _) (mem_word_getD ih _)

theorem buildWords_word_length {key : List Nat} {Nk : Nat} (hNk : 0 < Nk) :
    ∀ n, ∀ w ∈ buildWords key Nk n, w.length = 4 := by
  intro n
  induction n with
  | zero => simp [buildWords]
  | succ m ih =>
      intro w hw
      rw [buildWords] at hw
      simp only [List.mem_append, List.mem_singleton] at hw
      rcases hw with hw | rfl
      · exact ih w hw
      · split
        · rfl
        · rename_i hge
          have hm : Nk ≤ m := Nat.le_of_not_lt hge
          have hm1 : m - 1 < (buildWords key Nk m).length := by
            rw [buildWords_length]
            omega
          have hmk : m - Nk < (buildWords key Nk m).length := by
            rw [buildWords_length]
            omega
          have hprev1 : ((buildWords key Nk m).getD (m-1) []).length = 4 :=
            ih _ (getD_mem_of_lt hm1 [])
          have hprevk : ((buildWords key Nk m).getD (m-Nk) []).length = 4 :=
            ih _ (getD_mem_of_lt hmk [])
          simp only [List.getD_eq_getElem?_getD] at hprev1 hprevk
          split
          · rw [zipWith_xor_length]
            simp [hprevk]
          · split
            · rw [zipWith_xor_length]
              simp [hprev1, hprevk]
            · rw [zipWith_xor_length]
              simp [hprev1, hprevk]

theorem keyExpansion_ok {key : List Nat}
    (hk : key.length = 16 ∨ key.length = 24 ∨ key.length = 32) :
    ∃ rks, keyExpansion key = .ok rks ∧
      rks.length = numRoundsFor key.length + 1 ∧
      (∀ rk ∈ rks, rk.length = 16) ∧
      ((∀ x ∈ key, x < 256) → ∀ rk ∈ rks, RkLt rk) := by
  have hNk : 0 < key.length / 4 := by rcases hk with h | h | h <;> simp [h]
  have htot : ∀ i ∈ List.range (numRoundsFor key.length + 1), ∀ j < 4,
      4 * i + j < 4 * (numRoundsFor key.length + 1) := by
    intro i hi j hj
    rw [List.mem_range] at hi
    omega
  refine ⟨_, by rw [keyExpansion, if_pos hk], by simp, ?_, ?_⟩
  · intro rk hrk
    simp only [List.mem_map, List.mem_range] at hrk
    obtain ⟨i, hi, rfl⟩ := hrk
    have hw : ∀ j, j < 4 → ((buildWords key (key.length / 4)
        (4 * (numRoundsFor key.length + 1))).getD (4 * i + j) []).length = 4 := by
      intro j hj
      refine buildWords_word_length hNk _ _ (getD_mem_of_lt ?_ [])
      rw [buildWords_length]
      omega
    have e0 := hw 0 (by norm_num)
    have e1 := hw 1 (by norm_num)
    have e2 := hw 2 (by norm_num)
    have e3 := hw 3 (by norm_num)
    simp only [List.getD_eq_getElem?_getD, Nat.add_zero] at e0 e1 e2 e3
    simp [List.length_append, Nat.add_zero, e0, e1, e2, e3]
  · intro hkey rk hrk
    simp only [List.mem_map, List.mem_range] at hrk
    obtain ⟨i, hi, rfl⟩ := hrk
    intro x hx
    simp only [List.mem_append] at hx
    have hbw := buildWords_bytes_lt hkey hNk (4 * (numRoundsFor key.length + 1))
    rcases hx with ((hx | hx) | hx) | hx <;>
      exact mem_word_getD hbw _ x hx

/-! ## Byte-list and state conversions -/

theorem list_getD_id {b : List Nat} (h : b.length = 16) :
    [b.getD 0 0, b.getD 1 0, b.getD 2 0, b.getD 3 0,
     b.getD 4 0, b.getD 5 0, b.getD 6 0, b.getD 7 0,
     b.getD 8 0, b.getD 9 0, b.getD 10 0, b.getD 11 0,
     b.getD 12 0, b.getD 13 0, b.getD 14 0, b.getD 15 0] = b := by
  apply List.ext_getElem (by simp [h])
  intro i h1 h2
  have hi : i < 16 := by simpa using h1
  have hb : ∀ j, (hj : j < 16) → b.getD j 0 = b.get ⟨j, by omega⟩ := by
    intro j hj
    exact List.getD_eq_getElem b 0 (by omega)
  interval_cases i <;>
    simp only [List.getElem_cons_zero, List.getElem_cons_succ] <;>
    exact hb _ (by norm_num)

theorem bytesToState_of_len {b : List Nat} (h : b.length = 16) :
    bytesToState b = .ok ⟨b.getD 0 0, b.getD 4 0, b.getD 8 0, b.getD 12 0,
      b.getD 1 0, b.getD 5 0, b.getD 9 0, b.getD 13 0,
      b.getD 2 0, b.getD 6 0, b.getD 10 0, b.getD 14 0,
      b.getD 3 0, b.getD 7 0, b.getD 11 0, b.getD 15 0⟩ := by
  rw [bytesToState, if_pos h]

theorem stateToBytes_bytesToState {b : List Nat} (h : b.length = 16) :
    ∃ st, bytesToState b = .ok st ∧ stateToBytes st = b ∧
      ((∀ x ∈ b, x < 256) → StateLt st) := by
  refine ⟨_, bytesToState_of_len h, ?_, ?_⟩
  · show [b.getD 0 0, b.getD 1 0, b.getD 2 0, b.getD 3 0,
      b.getD 4 0, b.getD 5 0, b.getD 6 0, b.getD 7 0,
      b.getD 8 0, b.getD 9 0, b.getD 10 0, b.getD 11 0,
      b.getD 12 0, b.getD 13 0, b.getD 14 0, b.getD 15 0] = b
    exact list_getD_id h
  · intro hb
    exact ⟨getD_lt_of_all hb (by norm_num) _, getD_lt_of_all hb (by norm_num) _,
      getD_lt_of_all hb (by norm_num) _, getD_lt_of_all hb (by norm_num) _,
      getD_lt_of_all hb (by norm_num) _, getD_lt_of_all hb (by norm_num) _,
      getD_lt_of_all hb (by norm_num) _, getD_lt_of_all hb (by norm_num) _,
      getD_lt_of_all hb (by norm_num) _, getD_lt_of_all hb (by norm_num) _,
      getD_lt_of_all hb (by norm_num) _, getD_lt_of_all hb (by norm_num) _,
      getD_lt_of_all hb (by norm_num) _, getD_lt_of_all hb (by norm_num) _,
      getD_lt_of_all hb (by norm_num) _, getD_lt_of_all hb (by norm_num) _⟩

theorem bytesToState_stateToBytes (s : AESState) :
    bytesToState (stateToBytes s) = .ok s := rfl

theorem stateToBytes_length (s : AESState) : (stateToBytes s).length = 16 := rfl

theorem stateToBytes_mem_lt {s : AESState} (h : StateLt s) :
    ∀ x ∈ stateToBytes s, x < 256 := by
  obtain ⟨h00, h01, h02, h03, h10, h11, h12, h13, h20, h21, h22, h23, h30, h31, h32, h33⟩ := h
  intro x hx
  simp only [stateToBytes, List.mem_cons, List.not_mem_nil, or_false] at hx
  rcases hx with rfl | rfl | rfl | rfl | rfl | rfl | rfl | rfl | rfl | rfl | rfl | rfl |
    rfl | rfl | rfl | rfl <;> assumption

theorem cons_append_singleton_of_two_le {α : Type} {l : List α} (h : 2 ≤ l.length) :
    ∃ (a : α) (mid : List α) (b : α), l = a :: (mid ++ [b]) := by
  cases l with
  | nil => simp at h
  | cons a t =>
      rcases List.eq_nil_or_concat t with rfl | ⟨mid, b, rfl⟩
      · simp at h
      · exact ⟨a, mid, b, by simp [List.concat_eq_append]⟩

/-- Core roundtrip at the byte level: with a valid key, the full single-block
encrypt followed by decrypt restores the block. -/
theorem aes_block_core_roundtrip {block key : List Nat}
    (hblen : block.length = 16) (hbb : ∀ x ∈ block, x < 256)
    (hklen : key.length = 16 ∨ key.length = 24 ∨ key.length = 32)
    (hkb : ∀ x ∈ key, x < 256) :
    ∃ enc, aesEncryptBlock block key = .ok enc ∧ enc.length = 16 ∧
      (∀ x ∈ enc, x < 256) ∧ aesDecryptBlock enc key = .ok block := by
  obtain ⟨rks, hrks, hlen, _, hbnd⟩ := keyExpansion_ok hklen
  have hbnd' := hbnd hkb
  obtain ⟨st, hst, hback, hstlt⟩ := stateToBytes_bytesToState hblen
  have hstlt' := hstlt hbb
  have h2 : 2 ≤ rks.length := by
    rw [hlen]
    rcases hklen with h | h | h <;> simp [numRoundsFor, h]
  obtain ⟨k0, mid, kn, rfl⟩ := cons_append_singleton_of_two_le h2
  have hk0 : RkLt k0 := hbnd' _ (by simp)
  have hmid : ∀ k ∈ mid, RkLt k := fun k hk => hbnd' _ (by simp [hk])
  have henc : aesEncryptBlock block key =
      .ok (stateToBytes (encryptStateWithKeys (k0 :: (mid ++ [kn])) st)) := by
    unfold aesEncryptBlock
    rw [hrks, hst]
    rfl
  have hEstate : StateLt (encryptStateWithKeys (k0 :: (mid ++ [kn])) st) := by
    rw [encryptStateWithKeys_decomp]
    exact aesEncryptionRound_lt _ (hbnd' _ (by simp)) true
  refine ⟨_, henc, stateToBytes_length _, stateToBytes_mem_lt hEstate, ?_⟩
  unfold aesDecryptBlock
  rw [hrks, bytesToState_stateToBytes]
  show Except.ok (stateToBytes (decryptStateWithKeys (k0 :: (mid ++ [kn]))
    (encryptStateWithKeys (k0 :: (mid ++ [kn])) st))) = Except.ok block
  rw [state_roundtrip hk0 hmid hstlt', hback]

/-! ## Byte utilities (src/crypto/utils.ts) -/

/-- xorBytes of utils.ts: throws on length mismatch, else pairwise XOR. -/
def xorBytes (a b : List Nat) : Except String (List Nat) :=
  if a.length ≠ b.length then
    .error ("Byte arrays must have the same length: " ++ toString a.length ++
      " vs " ++ toString b.length)
  else
    .ok (List.zipWith (fun x y => x ^^^ y) a b)

/-! ## PKCS#7 padding (src/crypto/cbcMode.ts) -/

/-- padPKCS7 of cbcMode.ts: appends paddingLength copies of the value
paddingLength, where paddingLength = blockSize - (|data| mod blockSize). -/
def padPKCS7 (data : List Nat) (blockSize : Nat) : List Nat :=
  let paddingLength := blockSize - data.length % blockSize
  data ++ List.replicate paddingLength paddingLength

/-- The validation loop of unpadPKCS7: checks the bytes at positions
i, i+1, ... (fuel many) all equal paddingLength, failing at the first
mismatch with the position-carrying message of the source. -/
def padCheckFrom (data : List Nat) (paddingLength : Nat) : Nat → Nat → Except String Unit
  | 0, _ => .ok ()
  | fuel+1, i =>
      if data.getD i 0 ≠ paddingLength then
        .error ("Invalid padding: expected " ++ toString paddingLength ++
          " but found " ++ toString (data.getD i 0) ++ " at position " ++ toString i)
      else
        padCheckFrom data paddingLength fuel (i+1)

/-- unpadPKCS7 of cbcMode.ts: empty input and range checks on the final byte,
then the full padding-byte validation loop, then strips the padding.
BLOCK_SIZE_BYTES = 16 is modelled from the spec. -/
def unpadPKCS7 (data : List Nat) : Except String (List Nat) :=
  if data.length = 0 then
    .error "Cannot unpad empty data"
  else
    let paddingLength := data.getD (data.length - 1) 0
    if paddingLength = 0 ∨ paddingLength > 16 ∨ paddingLength > data.length then
      .error ("Invalid padding length: " ++ toString paddingLength)
    else
      match padCheckFrom data paddingLength paddingLength (data.length - paddingLength) with
      | .error e => .error e
      | .ok _ => .ok (data.take (data.length - paddingLength))

/-! ## CBC mode (src/crypto/cbcMode.ts) -/

/-- The block loop of encryptCBC: slice 16 bytes, XOR with the previous
cipher block (initially the IV), encrypt, continue with the cipher block as
the new previous block.  The loop advances 16 bytes per iteration; the fuel
argument (instantiated with the data length, which bounds the iteration
count) makes the recursion structural. -/
def cbcEncryptBlocksFuel (key : List Nat) : Nat → List Nat → List Nat → Except String (List Nat)
  | 0, _, _ => .ok []
  | _+1, _, [] => .ok []
  | fuel+1, prev, h :: t => do
      let block := (h :: t).take 16
      let xored ← xorBytes block prev
      let encryptedBlock ← aesEncryptBlock xored key
      let rest ← cbcEncryptBlocksFuel key fuel encryptedBlock (t.drop 15)
      .ok (encryptedBlock ++ rest)

/-- The block loop of encryptCBC, entered with enough fuel for every block. -/
def cbcEncryptBlocks (key prev data : List Nat) : Except String (List Nat) :=
  cbcEncryptBlocksFuel key data.length prev data

/-- The block loop of decryptCBC: slice 16 bytes, decrypt, XOR with the
previous cipher block (initially the IV), continue with the input cipher
block (not the decrypted output) as the new previous block; fuel as for
encryption. -/
def cbcDecryptBlocksFuel (key : List Nat) : Nat → List Nat → List Nat → Except String (List Nat)
  | 0, _, _ => .ok []
  | _+1, _, [] => .ok []
  | fuel+1, prev, h :: t => do
      let block := (h :: t).take 16
      let decryptedBlock ← aesDecryptBlock block key
      let xored ← xorBytes decryptedBlock prev
      let rest ← cbcDecryptBlocksFuel key fuel block (t.drop 15)
      .ok (xored ++ rest)

/-- The block loop of decryptCBC, entered with enough fuel for every block. -/
def cbcDecryptBlocks (key prev data : List Nat) : Except String (List Nat) :=
  cbcDecryptBlocksFuel key data.length prev data

/-- encryptCBC of cbcMode.ts.  The source generates a random IV when none is
supplied; the model requires the caller-supplied IV (the only mode the
verified claims exercise).  Returns the (iv, ciphertext) pair of the source
result object. -/
def encryptCBC (plaintext key iv : List Nat) : Except String (List Nat × List Nat) :=
  if iv.length ≠ 16 then
    .error ("Invalid IV length: " ++ toString iv.length ++ " bytes. Must be 16 bytes.")
  else do
    let paddedPlaintext := padPKCS7 plaintext 16
    let ciphertext ← cbcEncryptBlocks key iv paddedPlaintext
    .ok (iv, ciphertext)

/-- decryptCBC of cbcMode.ts: IV length check, ciphertext-length-multiple
check, block loop, then unpadding where any unpad failure is replaced by the
single generic decryption-failed message of the source. -/
def decryptCBC (ciphertext key iv : List Nat) : Except String (List Nat) :=
  if iv.length ≠ 16 then
    .error ("Invalid IV length: " ++ toString iv.length ++ " bytes. Must be 16 bytes.")
  else if ciphertext.length % 16 ≠ 0 then
    .error ("Invalid ciphertext length: " ++ toString ciphertext.length ++
      " bytes. Must be a multiple of 16 bytes.")
  else do
    let plaintext ← cbcDecryptBlocks key iv ciphertext
    match unpadPKCS7 plaintext with
    | .ok r => .ok r
    | .error _ =>
        .error "Decryption failed: Invalid padding. This may be due to incorrect key, IV, or corrupted ciphertext."

/-! ## Step-trace variants (src/crypto/cbcMode.ts) -/

/-- One per-block record of encryptCBCWithSteps. -/
structure EncBlockStep where
  index : Nat
  plainBlock : List Nat
  xorWithPrevious : List Nat
  encrypted : List Nat
  deriving DecidableEq

/-- The result object of encryptCBCWithSteps. -/
structure EncSteps where
  iv : List Nat
  plaintext : List Nat
  paddedPlaintext : List Nat
  blocks : List EncBlockStep
  ciphertext : List Nat
  deriving DecidableEq

/-- The block loop of encryptCBCWithSteps; the index argument counts blocks,
matching the source value i / BLOCK_SIZE_BYTES; fuel as for the plain loop. -/
def encStepsBlocksFuel (key : List Nat) :
    Nat → List Nat → Nat → List Nat → Except String (List EncBlockStep × List Nat)
  | 0, _, _, _ => .ok ([], [])
  | _+1, _, _, [] => .ok ([], [])
  | fuel+1, prev, idx, h :: t => do
      let plainBlock := (h :: t).take 16
      let xored ← xorBytes plainBlock prev
      let encryptedBlock ← aesEncryptBlock xored key
      let (bs, ct) ← encStepsBlocksFuel key fuel encryptedBlock (idx+1) (t.drop 15)
      .ok (⟨idx, plainBlock, xored, encryptedBlock⟩ :: bs, encryptedBlock ++ ct)

/-- The block loop of encryptCBCWithSteps, entered with enough fuel. -/
def encStepsBlocks (key prev : List Nat) (idx : Nat) (data : List Nat) :
    Except String (List EncBlockStep × List Nat) :=
  encStepsBlocksFuel key data.length prev idx data

/-- encryptCBCWithSteps of cbcMode.ts: no IV validation, no catch; records
the padded plaintext, per-block steps and the ciphertext. -/
def encryptCBCWithSteps (plaintext key iv : List Nat) : Except String EncSteps := do
  let paddedPlaintext := padPKCS7 plaintext 16
  let (blocks, ciphertext) ← encStepsBlocks key iv 0 paddedPlaintext
  .ok ⟨iv, plaintext, paddedPlaintext, blocks, ciphertext⟩

/-- One per-block record of decryptCBCWithSteps. -/
structure DecBlockStep where
  index : Nat
  cipherBlock : List Nat
  decrypted : List Nat
  xorWithPrevious : List Nat
  deriving DecidableEq

/-- The result object of decryptCBCWithSteps. -/
structure DecSteps where
  iv : List Nat
  ciphertext : List Nat
  blocks : List DecBlockStep
  paddedPlaintext : List Nat
  plaintext : List Nat
  deriving DecidableEq

/-- The block loop of decryptCBCWithSteps; fuel as for the plain loop. -/
def decStepsBlocksFuel (key : List Nat) :
    Nat → List Nat → Nat → List Nat → Except String (List DecBlockStep × List Nat)
  | 0, _, _, _ => .ok ([], [])
  | _+1, _, _, [] => .ok ([], [])
  | fuel+1, prev, idx, h :: t => do
      let cipherBlock := (h :: t).take 16
      let decryptedBlock ← aesDecryptBlock cipherBlock key
      let xored ← xorBytes decryptedBlock prev
      let (bs, padded) ← decStepsBlocksFuel key fuel cipherBlock (idx+1) (t.drop 15)
      .ok (⟨idx, cipherBlock, decryptedBlock, xored⟩ :: bs, xored ++ padded)

/-- The block loop of decryptCBCWithSteps, entered with enough fuel. -/
def decStepsBlocks (key prev : List Nat) (idx : Nat) (data : List Nat) :
    Except String (List DecBlockStep × List Nat) :=
  decStepsBlocksFuel key data.length prev idx data

/-- decryptCBCWithSteps of cbcMode.ts: no IV or length validation; the whole
loop and the unpadding run inside the try, and any failure message is wrapped
into the decryption-failed message that embeds the inner error text. -/
def decryptCBCWithSteps (ciphertext key iv : List Nat) : Except String DecSteps :=
  match (do
    let (blocks, padded) ← decStepsBlocks key iv 0 ciphertext
    let plaintext ← unpadPKCS7 padded
    pure (⟨iv, ciphertext, blocks, padded, plaintext⟩ : DecSteps) : Except String DecSteps) with
  | .ok r => .ok r
  | .error e =>
      .error ("Decryption failed: " ++ e ++
        ". This may be due to incorrect key, IV, or corrupted ciphertext.")

/-! ## Facts about Except binding -/

theorem except_bind_ok {α β : Type} (a : α) (f : α → Except String β) :
    ((Except.ok a : Except String α) >>= f) = f a := rfl

theorem except_bind_error {α β : Type} (e : String) (f : α → Except String β) :
    ((Except.error e : Except String α) >>= f) = .error e := rfl

/-! ## Facts about PKCS#7 padding -/

theorem padCheckFrom_ok {data : List Nat} {n : Nat} :
    ∀ fuel i, (∀ j, i ≤ j → j < i + fuel → data.getD j 0 = n) →
      padCheckFrom data n fuel i = .ok () := by
  intro fuel
  induction fuel with
  | zero => intro i _; rfl
  | succ f ih =>
      intro i h
      rw [padCheckFrom]
      rw [if_neg (by simpa using h i (le_refl i) (by omega))]
      exact ih (i+1) (fun j h1 h2 => h j (by omega) (by omega))

theorem padCheckFrom_error {data : List Nat} {n : Nat} :
    ∀ fuel i, (∃ j, i ≤ j ∧ j < i + fuel ∧ data.getD j 0 ≠ n) →
      ∃ m, padCheckFrom data n fuel i = .error m := by
  intro fuel
  induction fuel with
  | zero => intro i h; omega
  | succ f ih =>
      intro i h
      obtain ⟨j, hj1, hj2, hj3⟩ := h
      rw [padCheckFrom]
      by_cases hi : data.getD i 0 ≠ n
      · exact ⟨_, by rw [if_pos hi]⟩
      · rw [if_neg hi]
        push_neg at hi
        refine ih (i+1) ⟨j, ?_, by omega, hj3⟩
        rcases Nat.eq_or_lt_of_le hj1 with rfl | hlt
        · exact absurd hi hj3
        · omega

theorem padPKCS7_eq (data : List Nat) :
    padPKCS7 data 16 = data ++ List.replicate (16 - data.length % 16) (16 - data.length % 16) := rfl

theorem pad_n_pos (data : List Nat) : 1 ≤ 16 - data.length % 16 := by
  have := Nat.mod_lt data.length (show 0 < 16 by norm_num)
  omega

theorem pad_n_le (data : List Nat) : 16 - data.length % 16 ≤ 16 := by omega

theorem padPKCS7_length (data : List Nat) :
    (padPKCS7 data 16).length = data.length + (16 - data.length % 16) := by
  simp [padPKCS7_eq]

theorem padPKCS7_dvd (data : List Nat) : 16 ∣ (padPKCS7 data 16).length := by
  rw [padPKCS7_length]
  have hdm := Nat.div_add_mod data.length 16
  exact ⟨data.length / 16 + 1, by omega⟩

theorem replicate_getD_lt {n a i : Nat} (h : i < n) :
    (List.replicate n a).getD i 0 = a := by
  rw [List.getD_eq_getElem _ _ (by simpa using h)]
  simp

theorem padded_getD_high {data : List Nat} {n a j : Nat}
    (h1 : data.length ≤ j) (h2 : j < data.length + n) :
    (data ++ List.replicate n a).getD j 0 = a := by
  rw [List.getD_append_right _ _ _ _ h1]
  exact replicate_getD_lt (by omega)

theorem unpad_pad (m : List Nat) : unpadPKCS7 (padPKCS7 m 16) = .ok m := by
  have hn1 := pad_n_pos m
  have hn16 := pad_n_le m
  set n := 16 - m.length % 16 with hn
  have hlen : (padPKCS7 m 16).length = m.length + n := padPKCS7_length m
  have hlast : (padPKCS7 m 16).getD ((padPKCS7 m 16).length - 1) 0 = n := by
    rw [hlen, padPKCS7_eq, ← hn]
    exact padded_getD_high (by omega) (by omega)
  rw [unpadPKCS7]
  rw [if_neg (by omega : ¬ (padPKCS7 m 16).length = 0)]
  rw [hlast]
  rw [if_neg (by omega : ¬ (n = 0 ∨ n > 16 ∨ n > (padPKCS7 m 16).length))]
  have hcheck : padCheckFrom (padPKCS7 m 16) n n ((padPKCS7 m 16).length - n) = .ok () := by
    refine padCheckFrom_ok n _ ?_
    intro j h1 h2
    rw [padPKCS7_eq, ← hn]
    exact padded_getD_high (by omega) (by omega)
  rw [hcheck]
  have htake : (padPKCS7 m 16).take ((padPKCS7 m 16).length - n) = m := by
    rw [hlen, padPKCS7_eq, ← hn]
    have : m.length + n - n = m.length := by omega
    rw [this]
    exact List.take_left m _
  rw [htake]

/-! ## CBC loop roundtrip -/

theorem cbcEncryptBlocksFuel_congr (key : List Nat) :
    ∀ M1 M2 prev data, data.length ≤ M1 → data.length ≤ M2 →
      cbcEncryptBlocksFuel key M1 prev data = cbcEncryptBlocksFuel key M2 prev data := by
  intro M1
  induction M1 with
  | zero =>
      intro M2 prev data h1 h2
      have : data = [] := List.eq_nil_of_length_eq_zero (by omega)
      subst this
      cases M2 <;> rfl
  | succ M ih =>
      intro M2 prev data h1 h2
      cases data with
      | nil => cases M2 <;> rfl
      | cons h t =>
          cases M2 with
          | zero => simp at h2
          | succ M2' =>
              have hdl : (t.drop 15).length ≤ M := by
                rw [List.length_drop]
                simp only [List.length_cons] at h1
                omega
              have hdl2 : (t.drop 15).length ≤ M2' := by
                rw [List.length_drop]
                simp only [List.length_cons] at h2
                omega
              have ihh := fun p => ih M2' p (t.drop 15) hdl hdl2
              simp only [cbcEncryptBlocksFuel, ihh]

theorem cbcEncryptBlocksFuel_eq (key : List Nat) {M : Nat} {prev data : List Nat}
    (h : data.length ≤ M) :
    cbcEncryptBlocksFuel key M prev data = cbcEncryptBlocks key prev data :=
  cbcEncryptBlocksFuel_congr key M data.length prev data h (le_refl _)

theorem cbcDecryptBlocksFuel_congr (key : List Nat) :
    ∀ M1 M2 prev data, data.length ≤ M1 → data.length ≤ M2 →
      cbcDecryptBlocksFuel key M1 prev data = cbcDecryptBlocksFuel key M2 prev data := by
  intro M1
  induction M1 with
  | zero =>
      intro M2 prev data h1 h2
      have : data = [] := List.eq_nil_of_length_eq_zero (by omega)
      subst this
      cases M2 <;> rfl
  | succ M ih =>
      intro M2 prev data h1 h2
      cases data with
      | nil => cases M2 <;> rfl
      | cons h t =>
          cases M2 with
          | zero => simp at h2
          | succ M2' =>
              have hdl : (t.drop 15).length ≤ M := by
                rw [List.length_drop]
                simp only [List.length_cons] at h1
                omega
              have hdl2 : (t.drop 15).length ≤ M2' := by
                rw [List.length_drop]
                simp only [List.length_cons] at h2
                omega
              have ihh := ih M2' ((h :: t).take 16) (t.drop 15) hdl hdl2
              simp only [cbcDecryptBlocksFuel, ihh]

theorem cbcDecryptBlocksFuel_eq (key : List Nat) {M : Nat} {prev data : List Nat}
    (h : data.length ≤ M) :
    cbcDecryptBlocksFuel key M prev data = cbcDecryptBlocks key prev data :=
  cbcDecryptBlocksFuel_congr key M data.length prev data h (le_refl _)

theorem encStepsBlocksFuel_congr (key : List Nat) :
    ∀ M1 M2 prev idx data, data.length ≤ M1 → data.length ≤ M2 →
      encStepsBlocksFuel key M1 prev idx data = encStepsBlocksFuel key M2 prev idx data := by
  intro M1
  induction M1 with
  | zero =>
      intro M2 prev idx data h1 h2
      have : data = [] := List.eq_nil_of_length_eq_zero (by omega)
      subst this
      cases M2 <;> rfl
  | succ M ih =>
      intro M2 prev idx data h1 h2
      cases data with
      | nil => cases M2 <;> rfl
      | cons h t =>
          cases M2 with
          | zero => simp at h2
          | succ M2' =>
              have hdl : (t.drop 15).length ≤ M := by
                rw [List.length_drop]
                simp only [List.length_cons] at h1
                omega
              have hdl2 : (t.drop 15).length ≤ M2' := by
                rw [List.length_drop]
                simp only [List.length_cons] at h2
                omega
              have ihh := fun p => ih M2' p (idx+1) (t.drop 15) hdl hdl2
              simp only [encStepsBlocksFuel, ihh]

theorem encStepsBlocksFuel_eq (key : List Nat) {M idx : Nat} {prev data : List Nat}
    (h : data.length ≤ M) :
    encStepsBlocksFuel key M prev idx data = encStepsBlocks key prev idx data :=
  encStepsBlocksFuel_congr key M data.length prev idx data h (le_refl _)

theorem decStepsBlocksFuel_congr (key : List Nat) :
    ∀ M1 M2 prev idx data, data.length ≤ M1 → data.length ≤ M2 →
      decStepsBlocksFuel key M1 prev idx data = decStepsBlocksFuel key M2 prev idx data := by
  intro M1
  induction M1 with
  | zero =>
      intro M2 prev idx data h1 h2
      have : data = [] := List.eq_nil_of_length_eq_zero (by omega)
      subst this
      cases M2 <;> rfl
  | succ M ih =>
      intro M2 prev idx data h1 h2
      cases data with
      | nil => cases M2 <;> rfl
      | cons h t =>
          cases M2 with
          | zero => simp at h2
          | succ M2' =>
              have hdl : (t.drop 15).length ≤ M := by
                rw [List.length_drop]
                simp only [List.length_cons] at h1
                omega
              have hdl2 : (t.drop 15).length ≤ M2' := by
                rw [List.length_drop]
                simp only [List.length_cons] at h2
                omega
              have ihh := ih M2' ((h :: t).take 16) (idx+1) (t.drop 15) hdl hdl2
              simp only [decStepsBlocksFuel, ihh]

theorem decStepsBlocksFuel_eq (key : List Nat) {M idx : Nat} {prev data : List Nat}
    (h : data.length ≤ M) :
    decStepsBlocksFuel key M prev idx data = decStepsBlocks key prev idx data :=
  decStepsBlocksFuel_congr key M data.length prev idx data h (le_refl _)

theorem zipWith_xor_cancel : ∀ (a b : List Nat), a.length = b.length →
    List.zipWith (fun x y => x ^^^ y) (List.zipWith (fun x y => x ^^^ y) a b) b = a := by
  intro a
  induction a with
  | nil =>
      intro b h
      have : b = [] := List.eq_nil_of_length_eq_zero (by simpa using h.symm)
      subst this
      rfl
  | cons x t ih =>
      intro b h
      cases b with
      | nil => simp at h
      | cons y u =>
          simp only [List.zipWith_cons_cons, Nat.xor_cancel_right]
          rw [ih u (by simpa using h)]

theorem xorBytes_ok {a b : List Nat} (h : a.length = b.length) :
    xorBytes a b = .ok (List.zipWith (fun x y => x ^^^ y) a b) := by
  rw [xorBytes, if_neg (by omega)]

theorem cbc_loop_roundtrip {key : List Nat}
    (hklen : key.length = 16 ∨ key.length = 24 ∨ key.length = 32)
    (hkb : ∀ x ∈ key, x < 256) :
    ∀ N data prev, data.length ≤ N → 16 ∣ data.length → (∀ x ∈ data, x < 256) →
      prev.length = 16 → (∀ x ∈ prev, x < 256) →
      ∃ ct, cbcEncryptBlocks key prev data = .ok ct ∧ ct.length = data.length ∧
        (∀ x ∈ ct, x < 256) ∧ cbcDecryptBlocks key prev ct = .ok data := by
  intro N
  induction N with
  | zero =>
      intro data prev hN _ _ _ _
      have : data = [] := List.eq_nil_of_length_eq_zero (by omega)
      subst this
      exact ⟨[], rfl, rfl, by simp, rfl⟩
  | succ N ih =>
      intro data prev hN hdvd hdb hpl hpb
      cases data with
      | nil => exact ⟨[], rfl, rfl, by simp, rfl⟩
      | cons h t =>
          obtain ⟨k, hk⟩ := hdvd
          have hk0 : 0 < k := by
            rcases Nat.eq_zero_or_pos k with rfl | hp
            · simp at hk
            · exact hp
          have hlen16 : 16 ≤ (h :: t).length := by omega
          have hblock_len : ((h :: t).take 16).length = 16 := by
            simp only [List.length_take]
            omega
          have hblock_mem : ∀ x ∈ (h :: t).take 16, x < 256 :=
            fun x hx => hdb x (List.mem_of_mem_take hx)
          have hxor := xorBytes_ok (by omega : ((h :: t).take 16).length = prev.length)
          have hxlen : (List.zipWith (fun x y => x ^^^ y) ((h :: t).take 16) prev).length = 16 := by
            rw [List.length_zipWith]
            omega
          have hxb : ∀ x ∈ List.zipWith (fun x y => x ^^^ y) ((h :: t).take 16) prev, x < 256 :=
            zipWith_xor_lt _ _ hblock_mem hpb
          obtain ⟨e, henc, helen, heb, hdecb⟩ :=
            aes_block_core_roundtrip hxlen hxb hklen hkb
          have hrec := ih (t.drop 15) e (by simp [List.length_drop] at *; omega)
            ⟨k - 1, by simp [List.length_drop] at *; omega⟩
            (fun x hx => hdb x (List.mem_cons_of_mem h (List.mem_of_mem_drop hx)))
            helen heb
          obtain ⟨ct2, hct2, hctlen, hctb, hdec2⟩ := hrec
          have hdrop : List.drop 16 (h :: t) = t.drop 15 := rfl
          refine ⟨e ++ ct2, ?_, ?_, ?_, ?_⟩
          · rw [cbcEncryptBlocks]
            simp only [List.length_cons]
            simp only [cbcEncryptBlocksFuel]
            rw [hxor, except_bind_ok, henc, except_bind_ok,
              cbcEncryptBlocksFuel_eq key (by rw [List.length_drop]; omega),
              hct2, except_bind_ok]
          · simp only [List.length_append, helen, hctlen, List.length_drop]
            simp only [List.length_cons] at hlen16 ⊢
            omega
          · intro x hx
            rcases List.mem_append.mp hx with hx | hx
            · exact heb x hx
            · exact hctb x hx
          · cases e with
            | nil => simp at helen
            | cons e0 et =>
                have hetlen : et.length = 15 := by simpa using helen
                have htk : ((e0 :: et) ++ ct2).take 16 = e0 :: et := by
                  have : (16 : Nat) = (e0 :: et).length := by simp [hetlen]
                  rw [this]
                  exact List.take_left _ _
                have hdp : ((et ++ ct2)).drop 15 = ct2 := by
                  have : (15 : Nat) = et.length := hetlen.symm
                  rw [this]
                  exact List.drop_left _ _
                show cbcDecryptBlocks key prev (e0 :: (et ++ ct2)) = .ok (h :: t)
                rw [cbcDecryptBlocks]
                simp only [List.length_cons]
                simp only [cbcDecryptBlocksFuel]
                have htk2 : (e0 :: (et ++ ct2)).take 16 = e0 :: et := by
                  simpa using htk
                rw [htk2, hdecb, except_bind_ok,
                  xorBytes_ok (by omega : (List.zipWith (fun x y => x ^^^ y) ((h :: t).take 16) prev).length = prev.length),
                  except_bind_ok, hdp,
                  cbcDecryptBlocksFuel_eq key (by rw [List.length_append]; omega),
                  hdec2, except_bind_ok,
                  zipWith_xor_cancel _ _ (by omega : ((h :: t).take 16).length = prev.length)]
                rw [← hdrop, List.take_append_drop]

/-! ## Claim C1: single-block roundtrip -/

/-- C1: for every 16-byte block b and every key k of length 16, 24, or 32
bytes (all entries being bytes), aesDecryptBlock(aesEncryptBlock(b,k),k)
succeeds and returns b. -/
theorem C1_aes_block_roundtrip (block key : List Nat)
    (hblen : block.length = 16) (hbb : ∀ x ∈ block, x < 256)
    (hklen : key.length = 16 ∨ key.length = 24 ∨ key.length = 32)
    (hkb : ∀ x ∈ key, x < 256) :
    ∃ enc, aesEncryptBlock block key = .ok enc ∧ aesDecryptBlock enc key = .ok block := by
  obtain ⟨e, h1, _, _, h4⟩ := aes_block_core_roundtrip hblen hbb hklen hkb
  exact ⟨e, h1, h4⟩

/-- Witness for C1 at the all-zero block and all-zero AES-128 key. -/
theorem C1_aes_block_roundtrip_witness :
    ∃ enc, aesEncryptBlock (List.replicate 16 0) (List.replicate 16 0) = .ok enc ∧
      aesDecryptBlock enc (List.replicate 16 0) = .ok (List.replicate 16 0) :=
  C1_aes_block_roundtrip _ _ (by decide) (by decide) (by decide) (by decide)

/-! ## Claim C2: CBC roundtrip -/

/-- C2: for every key of valid length, every 16-byte IV, and every byte
message m, decryptCBC recovers m from the ciphertext of encryptCBC. -/
theorem C2_cbc_roundtrip (m key iv : List Nat)
    (hklen : key.length = 16 ∨ key.length = 24 ∨ key.length = 32)
    (hkb : ∀ x ∈ key, x < 256)
    (hivlen : iv.length = 16) (hivb : ∀ x ∈ iv, x < 256)
    (hmb : ∀ x ∈ m, x < 256) :
    ∃ ct, encryptCBC m key iv = .ok (iv, ct) ∧ decryptCBC ct key iv = .ok m := by
  have hpb : ∀ x ∈ padPKCS7 m 16, x < 256 := by
    intro x hx
    rw [padPKCS7_eq] at hx
    rcases List.mem_append.mp hx with hx | hx
    · exact hmb x hx
    · have := List.eq_of_mem_replicate hx
      subst this
      have := pad_n_le m
      omega
  obtain ⟨ct, hct, hctlen, _, hdec⟩ :=
    cbc_loop_roundtrip hklen hkb (padPKCS7 m 16).length (padPKCS7 m 16) iv
      (le_refl _) (padPKCS7_dvd m) hpb hivlen hivb
  refine ⟨ct, ?_, ?_⟩
  · simp only [encryptCBC]
    rw [if_neg (by omega : ¬iv.length ≠ 16), hct, except_bind_ok]
  · have hmod : ct.length % 16 = 0 := by
      obtain ⟨q, hq⟩ := padPKCS7_dvd m
      rw [hctlen, hq]
      exact Nat.mul_mod_right 16 q
    simp only [decryptCBC]
    rw [if_neg (by omega : ¬iv.length ≠ 16), if_neg (by omega : ¬ct.length % 16 ≠ 0),
      hdec, except_bind_ok, unpad_pad]

/-- Witness for C2 at the HELLO message of the spec with zero key and IV. -/
theorem C2_cbc_roundtrip_witness :
    ∃ ct, encryptCBC [0x48, 0x45, 0x4c, 0x4c, 0x4f] (List.replicate 16 0) (List.replicate 16 0) =
        .ok (List.replicate 16 0, ct) ∧
      decryptCBC ct (List.replicate 16 0) (List.replicate 16 0) =
        .ok [0x48, 0x45, 0x4c, 0x4c, 0x4f] :=
  C2_cbc_roundtrip _ _ _ (by decide) (by decide) (by decide) (by decide) (by decide)

/-! ## Claim C3: FIPS-197 known-answer test -/

/-- C3: the FIPS-197 AES-128 single-block reference vector: encrypting
00112233445566778899aabbccddeeff under key 000102030405060708090a0b0c0d0e0f
yields 69c4e0d86a7b0430d8cdb78070b4c55a. -/
theorem C3_fips197_kat :
    aesEncryptBlock
      [0x00, 0x11, 0x22, 0x33, 0x44, 0x55, 0x66, 0x77,
       0x88, 0x99, 0xaa, 0xbb, 0xcc, 0xdd, 0xee, 0xff]
      [0x00, 0x01, 0x02, 0x03, 0x04, 0x05, 0x06, 0x07,
       0x08, 0x09, 0x0a, 0x0b, 0x0c, 0x0d, 0x0e, 0x0f] =
      .ok [0x69, 0xc4, 0xe0, 0xd8, 0x6a, 0x7b, 0x04, 0x30,
           0xd8, 0xcd, 0xb7, 0x80, 0x70, 0xb4, 0xc5, 0x5a] := by
  rfl

/-! ## Claim C4: key expansion contract -/

/-- C4: keyExpansion rejects every key length outside 16/24/32 with the
InvalidKeyLength error, and on 16/24/32-byte keys returns exactly 11/13/15
round keys, each exactly 16 bytes. -/
theorem C4_keyExpansion_contract :
    (∀ key : List Nat, ¬(key.length = 16 ∨ key.length = 24 ∨ key.length = 32) →
      keyExpansion key = .error ("Invalid key length: " ++ toString key.length ++
        " bytes. Must be 16, 24, or 32 bytes.")) ∧
    (∀ key : List Nat, key.length = 16 →
      ∃ rks, keyExpansion key = .ok rks ∧ rks.length = 11 ∧ ∀ rk ∈ rks, rk.length = 16) ∧
    (∀ key : List Nat, key.length = 24 →
      ∃ rks, keyExpansion key = .ok rks ∧ rks.length = 13 ∧ ∀ rk ∈ rks, rk.length = 16) ∧
    (∀ key : List Nat, key.length = 32 →
      ∃ rks, keyExpansion key = .ok rks ∧ rks.length = 15 ∧ ∀ rk ∈ rks, rk.length = 16) := by
  refine ⟨?_, ?_, ?_, ?_⟩
  · intro key h
    rw [keyExpansion, if_neg h]
  · intro key h
    obtain ⟨rks, h1, h2, h3, _⟩ := keyExpansion_ok (Or.inl h)
    refine ⟨rks, h1, ?_, h3⟩
    rw [h2, h]
    rfl
  · intro key h
    obtain ⟨rks, h1, h2, h3, _⟩ := keyExpansion_ok (Or.inr (Or.inl h))
    refine ⟨rks, h1, ?_, h3⟩
    rw [h2, h]
    rfl
  · intro key h
    obtain ⟨rks, h1, h2, h3, _⟩ := keyExpansion_ok (Or.inr (Or.inr h))
    refine ⟨rks, h1, ?_, h3⟩
    rw [h2, h]
    rfl

/-- Witness for C4: a 15-byte key is rejected; a 16-byte key yields 11 round
keys of 16 bytes. -/
theorem C4_keyExpansion_contract_witness :
    keyExpansion (List.replicate 15 0) =
      .error ("Invalid key length: " ++ toString (List.replicate 15 0).length ++
        " bytes. Must be 16, 24, or 32 bytes.") ∧
    ∃ rks, keyExpansion (List.replicate 16 0) = .ok rks ∧ rks.length = 11 ∧
      ∀ rk ∈ rks, rk.length = 16 :=
  ⟨C4_keyExpansion_contract.1 _ (by decide),
   C4_keyExpansion_contract.2.1 _ (by decide)⟩

/-! ## Claim C5: PKCS#7 padding -/

/-- C5: padPKCS7 appends exactly n = 16 - (|data| mod 16) bytes of value n,
with n between 1 and 16; a message already a multiple of 16 receives a full
extra block of sixteen bytes of value 16. -/
theorem C5_padPKCS7_contract (data : List Nat) :
    padPKCS7 data 16 =
      data ++ List.replicate (16 - data.length % 16) (16 - data.length % 16) ∧
    1 ≤ 16 - data.length % 16 ∧ 16 - data.length % 16 ≤ 16 ∧
    (data.length % 16 = 0 → padPKCS7 data 16 = data ++ List.replicate 16 16) := by
  refine ⟨rfl, pad_n_pos data, pad_n_le data, ?_⟩
  intro h
  rw [padPKCS7_eq, h]

/-- Witness for C5: the empty message receives a full padding block. -/
theorem C5_padPKCS7_contract_witness :
    padPKCS7 ([] : List Nat) 16 = [] ++ List.replicate 16 16 :=
  (C5_padPKCS7_contract []).2.2.2 (by decide)

/-! ## Claim C6: unpadPKCS7 contract -/

theorem padCheckFrom_error_msg {data : List Nat} {n : Nat} :
    ∀ fuel i, (∃ j, i ≤ j ∧ j < i + fuel ∧ data.getD j 0 ≠ n) →
      ∃ j, i ≤ j ∧ j < i + fuel ∧ data.getD j 0 ≠ n ∧
        padCheckFrom data n fuel i =
          .error ("Invalid padding: expected " ++ toString n ++ " but found " ++
            toString (data.getD j 0) ++ " at position " ++ toString j) := by
  intro fuel
  induction fuel with
  | zero =>
      intro i h
      obtain ⟨j, h1, h2, _⟩ := h
      omega
  | succ f ih =>
      intro i h
      by_cases hi : data.getD i 0 ≠ n
      · refine ⟨i, le_refl i, by omega, hi, ?_⟩
        rw [padCheckFrom, if_pos hi]
      · push_neg at hi
        obtain ⟨j, hj1, hj2, hj3⟩ := h
        have hne : j ≠ i := fun he => hj3 (by rw [he, hi])
        obtain ⟨j2, h1, h2, h3, h4⟩ := ih (i+1) ⟨j, by omega, by omega, hj3⟩
        refine ⟨j2, by omega, by omega, h3, ?_⟩
        rw [padCheckFrom, if_neg (not_not_intro hi), h4]

/-- C6: unpadPKCS7 fails with EmptyInput exactly on empty input; otherwise,
with n the last byte, it fails with an InvalidPadding error exactly when
n = 0, n > 16, n > |data|, or one of the last n bytes differs from n, and in
every remaining case strips the last n bytes; consequently it inverts
padPKCS7. -/
theorem C6_unpadPKCS7_contract :
    unpadPKCS7 [] = .error "Cannot unpad empty data" ∧
    (∀ data : List Nat, data ≠ [] →
      (data.getD (data.length - 1) 0 = 0 ∨ data.getD (data.length - 1) 0 > 16 ∨
        data.getD (data.length - 1) 0 > data.length) →
      unpadPKCS7 data =
        .error ("Invalid padding length: " ++ toString (data.getD (data.length - 1) 0))) ∧
    (∀ data : List Nat, data ≠ [] →
      ¬(data.getD (data.length - 1) 0 = 0 ∨ data.getD (data.length - 1) 0 > 16 ∨
        data.getD (data.length - 1) 0 > data.length) →
      (∃ j, data.length - data.getD (data.length - 1) 0 ≤ j ∧ j < data.length ∧
        data.getD j 0 ≠ data.getD (data.length - 1) 0) →
      ∃ j, data.length - data.getD (data.length - 1) 0 ≤ j ∧ j < data.length ∧
        unpadPKCS7 data =
          .error ("Invalid padding: expected " ++ toString (data.getD (data.length - 1) 0) ++
            " but found " ++ toString (data.getD j 0) ++ " at position " ++ toString j)) ∧
    (∀ data : List Nat, data ≠ [] →
      ¬(data.getD (data.length - 1) 0 = 0 ∨ data.getD (data.length - 1) 0 > 16 ∨
        data.getD (data.length - 1) 0 > data.length) →
      (∀ j, data.length - data.getD (data.length - 1) 0 ≤ j → j < data.length →
        data.getD j 0 = data.getD (data.length - 1) 0) →
      unpadPKCS7 data =
        .ok (data.take (data.length - data.getD (data.length - 1) 0))) ∧
    (∀ m : List Nat, unpadPKCS7 (padPKCS7 m 16) = .ok m) := by
  refine ⟨rfl, ?_, ?_, ?_, unpad_pad⟩
  · intro data hne hcond
    have hl : ¬data.length = 0 := by
      simpa [List.length_eq_zero] using hne
    simp only [unpadPKCS7]
    rw [if_neg hl, if_pos hcond]
  · intro data hne hrange hbad
    have hl : ¬data.length = 0 := by
      simpa [List.length_eq_zero] using hne
    have hn_le : data.getD (data.length - 1) 0 ≤ data.length := by
      push_neg at hrange
      omega
    obtain ⟨j0, hj01, hj02, hj03⟩ := hbad
    obtain ⟨j, h1, h2, h3, hmsg⟩ :=
      @padCheckFrom_error_msg data (data.getD (data.length - 1) 0)
        (data.getD (data.length - 1) 0) (data.length - data.getD (data.length - 1) 0)
        ⟨j0, hj01, by omega, hj03⟩
    refine ⟨j, h1, by omega, ?_⟩
    simp only [unpadPKCS7]
    rw [if_neg hl, if_neg hrange, hmsg]
  · intro data hne hrange hok
    have hl : ¬data.length = 0 := by
      simpa [List.length_eq_zero] using hne
    have hn_le : data.getD (data.length - 1) 0 ≤ data.length := by
      push_neg at hrange
      omega
    have hcheck := @padCheckFrom_ok data (data.getD (data.length - 1) 0)
      (data.getD (data.length - 1) 0) (data.length - data.getD (data.length - 1) 0)
      (fun j hj1 hj2 => hok j hj1 (by omega))
    simp only [unpadPKCS7]
    rw [if_neg hl, if_neg hrange, hcheck]

/-- Witness for C6: a too-large final byte is rejected; unpadding a padded
message restores it. -/
theorem C6_unpadPKCS7_contract_witness :
    unpadPKCS7 [15, 15] = .error ("Invalid padding length: " ++ toString 15) ∧
    unpadPKCS7 (padPKCS7 [1, 2, 3] 16) = .ok [1, 2, 3] := by
  have h1 := C6_unpadPKCS7_contract.2.1 [15, 15] (by decide) (by decide)
  have h2 := C6_unpadPKCS7_contract.2.2.2.2 [1, 2, 3]
  exact ⟨by simpa using h1, h2⟩

/-! ## Claim C7: decryptCBC input validation -/

/-- Counterexample to C7 as stated: the empty ciphertext has length 0, which
is not a positive multiple of 16, yet decryptCBC does not fail with
InvalidCiphertextLength: the length check only tests divisibility, so the
empty input reaches the unpadding stage and surfaces the generic
decryption-failed error instead. -/
theorem C7_empty_ciphertext_counterexample :
    decryptCBC [] (List.replicate 16 0) (List.replicate 16 0) =
      .error "Decryption failed: Invalid padding. This may be due to incorrect key, IV, or corrupted ciphertext." ∧
    "Decryption failed: Invalid padding. This may be due to incorrect key, IV, or corrupted ciphertext." ≠
      "Invalid ciphertext length: 0 bytes. Must be a multiple of 16 bytes." :=
  ⟨rfl, by decide⟩

/-- C7 amended: decryptCBC fails with InvalidIVLength whenever the IV is not
16 bytes, and with InvalidCiphertextLength whenever the ciphertext length is
a nonzero non-multiple of 16, both before any block is decrypted; the empty
ciphertext, however, passes the length check and fails only after the block
loop, with the generic decryption-failed error. -/
theorem C7_decryptCBC_validation (ciphertext key iv : List Nat) :
    (iv.length ≠ 16 → decryptCBC ciphertext key iv =
      .error ("Invalid IV length: " ++ toString iv.length ++ " bytes. Must be 16 bytes.")) ∧
    (iv.length = 16 → ciphertext.length % 16 ≠ 0 → decryptCBC ciphertext key iv =
      .error ("Invalid ciphertext length: " ++ toString ciphertext.length ++
        " bytes. Must be a multiple of 16 bytes.")) ∧
    (iv.length = 16 → ciphertext = [] → decryptCBC ciphertext key iv =
      .error "Decryption failed: Invalid padding. This may be due to incorrect key, IV, or corrupted ciphertext.") := by
  refine ⟨?_, ?_, ?_⟩
  · intro h
    simp only [decryptCBC]
    rw [if_pos h]
  · intro h16 hmod
    simp only [decryptCBC]
    rw [if_neg (by omega), if_pos hmod]
  · intro h16 hct
    subst hct
    simp only [decryptCBC]
    rw [if_neg (by omega), if_neg (by simp)]
    rfl

/-- Witness for the amended C7 at concrete inputs: a 15-byte IV, a 1-byte
ciphertext, and the empty ciphertext. -/
theorem C7_decryptCBC_validation_witness :
    decryptCBC [1] (List.replicate 16 0) (List.replicate 15 0) =
      .error "Invalid IV length: 15 bytes. Must be 16 bytes." ∧
    decryptCBC [1] (List.replicate 16 0) (List.replicate 16 0) =
      .error "Invalid ciphertext length: 1 bytes. Must be a multiple of 16 bytes." ∧
    decryptCBC [] (List.replicate 16 0) (List.replicate 16 0) =
      .error "Decryption failed: Invalid padding. This may be due to incorrect key, IV, or corrupted ciphertext." :=
  ⟨(C7_decryptCBC_validation [1] (List.replicate 16 0) (List.replicate 15 0)).1 (by decide),
   (C7_decryptCBC_validation [1] (List.replicate 16 0) (List.replicate 16 0)).2.1
     (by decide) (by decide),
   (C7_decryptCBC_validation [] (List.replicate 16 0) (List.replicate 16 0)).2.2
     (by decide) rfl⟩

/-! ## Claim C8: granularity of padding errors -/

/-- Counterexample to C8 as stated: two ciphertexts whose padding is invalid
for different reasons (padding length byte 0 versus a mismatched padding
byte) surface two different errors from decryptCBCWithSteps, which embeds the
specific inner message; decryptCBC, by contrast, surfaces the identical
generic message for both. -/
theorem C8_steps_error_distinguishes :
    decryptCBCWithSteps
      [102, 233, 75, 212, 239, 138, 44, 59, 136, 76, 250, 89, 202, 52, 43, 46]
      (List.replicate 16 0) (List.replicate 16 0) =
      .error "Decryption failed: Invalid padding length: 0. This may be due to incorrect key, IV, or corrupted ciphertext." ∧
    decryptCBCWithSteps
      [3, 136, 218, 206, 96, 182, 163, 146, 243, 40, 194, 185, 113, 178, 254, 120]
      (List.replicate 16 0) (List.replicate 16 0) =
      .error "Decryption failed: Invalid padding: expected 2 but found 0 at position 14. This may be due to incorrect key, IV, or corrupted ciphertext." ∧
    "Decryption failed: Invalid padding length: 0. This may be due to incorrect key, IV, or corrupted ciphertext." ≠
      "Decryption failed: Invalid padding: expected 2 but found 0 at position 14. This may be due to incorrect key, IV, or corrupted ciphertext." ∧
    decryptCBC [102, 233, 75, 212, 239, 138, 44, 59, 136, 76, 250, 89, 202, 52, 43, 46]
      (List.replicate 16 0) (List.replicate 16 0) =
      .error "Decryption failed: Invalid padding. This may be due to incorrect key, IV, or corrupted ciphertext." ∧
    decryptCBC [3, 136, 218, 206, 96, 182, 163, 146, 243, 40, 194, 185, 113, 178, 254, 120]
      (List.replicate 16 0) (List.replicate 16 0) =
      .error "Decryption failed: Invalid padding. This may be due to incorrect key, IV, or corrupted ciphertext." :=
  ⟨rfl, rfl, by decide, rfl, rfl⟩

/-- C8 amended: decryptCBC (the plain variant) does surface one single
generic decryption-failed error for every padding-validation failure,
independent of which padding check failed and at what offset; the step-trace
variant decryptCBCWithSteps instead embeds the specific underlying padding
message in its surfaced error, so padding failures with different causes are
distinguishable there. -/
theorem C8_decryptCBC_generic_padding_error (ciphertext key iv : List Nat)
    (hiv : iv.length = 16) (hmod : ciphertext.length % 16 = 0) (p : List Nat)
    (hloop : cbcDecryptBlocks key iv ciphertext = .ok p)
    (hbad : ∃ m, unpadPKCS7 p = .error m) :
    decryptCBC ciphertext key iv =
      .error "Decryption failed: Invalid padding. This may be due to incorrect key, IV, or corrupted ciphertext." := by
  obtain ⟨m, hm⟩ := hbad
  simp only [decryptCBC]
  rw [if_neg (by omega), if_neg (by omega), hloop, except_bind_ok, hm]

/-- Witness for the amended C8 at a concrete bad-padding ciphertext. -/
theorem C8_decryptCBC_generic_padding_error_witness :
    decryptCBC [102, 233, 75, 212, 239, 138, 44, 59, 136, 76, 250, 89, 202, 52, 43, 46]
      (List.replicate 16 0) (List.replicate 16 0) =
      .error "Decryption failed: Invalid padding. This may be due to incorrect key, IV, or corrupted ciphertext." :=
  C8_decryptCBC_generic_padding_error _ _ _ (by decide) (by decide)
    (List.replicate 15 0 ++ [0]) (by rfl) ⟨"Invalid padding length: 0", by rfl⟩

/-! ## Claim C10: step-trace variants versus plain variants -/

theorem encSteps_vs_plain (key : List Nat) : ∀ (M : Nat) (prev : List Nat) (idx : Nat)
    (data : List Nat),
    (∀ e, cbcEncryptBlocksFuel key M prev data = .error e →
      encStepsBlocksFuel key M prev idx data = .error e) ∧
    (∀ ct, cbcEncryptBlocksFuel key M prev data = .ok ct →
      ∃ bs, encStepsBlocksFuel key M prev idx data = .ok (bs, ct)) := by
  intro M
  induction M with
  | zero =>
      intro prev idx data
      constructor
      · intro e he
        simp [cbcEncryptBlocksFuel] at he
      · intro ct hct
        simp only [cbcEncryptBlocksFuel, Except.ok.injEq] at hct
        exact ⟨[], by simp [encStepsBlocksFuel, hct]⟩
  | succ M ih =>
      intro prev idx data
      cases data with
      | nil =>
          constructor
          · intro e he
            simp [cbcEncryptBlocksFuel] at he
          · intro ct hct
            simp only [cbcEncryptBlocksFuel, Except.ok.injEq] at hct
            exact ⟨[], by simp [encStepsBlocksFuel, hct]⟩
      | cons h t =>
          simp only [cbcEncryptBlocksFuel, encStepsBlocksFuel]
          cases hx : xorBytes ((h :: t).take 16) prev with
          | error e0 =>
              rw [except_bind_error, except_bind_error]
              constructor
              · intro e he
                simp only [Except.error.injEq] at he ⊢
                exact he
              · intro ct hct
                simp at hct
          | ok x =>
              rw [except_bind_ok, except_bind_ok]
              cases he : aesEncryptBlock x key with
              | error e0 =>
                  rw [except_bind_error, except_bind_error]
                  constructor
                  · intro e hee
                    simp only [Except.error.injEq] at hee ⊢
                    exact hee
                  · intro ct hct
                    simp at hct
              | ok enc =>
                  rw [except_bind_ok, except_bind_ok]
                  obtain ⟨ih1, ih2⟩ := ih enc (idx+1) (t.drop 15)
                  cases hr : cbcEncryptBlocksFuel key M enc (t.drop 15) with
                  | error e0 =>
                      rw [except_bind_error, ih1 e0 hr, except_bind_error]
                      constructor
                      · intro e hee
                        simp only [Except.error.injEq] at hee ⊢
                        exact hee
                      · intro ct hct
                        simp at hct
                  | ok ct2 =>
                      rw [except_bind_ok]
                      obtain ⟨bs, hbs⟩ := ih2 ct2 hr
                      rw [hbs, except_bind_ok]
                      constructor
                      · intro e hee
                        simp at hee
                      · intro ct hct
                        simp only [Except.ok.injEq] at hct
                        exact ⟨_, by rw [← hct]⟩

theorem decSteps_vs_plain (key : List Nat) : ∀ (M : Nat) (prev : List Nat) (idx : Nat)
    (data : List Nat),
    (∀ e, cbcDecryptBlocksFuel key M prev data = .error e →
      decStepsBlocksFuel key M prev idx data = .error e) ∧
    (∀ p, cbcDecryptBlocksFuel key M prev data = .ok p →
      ∃ bs, decStepsBlocksFuel key M prev idx data = .ok (bs, p)) := by
  intro M
  induction M with
  | zero =>
      intro prev idx data
      constructor
      · intro e he
        simp [cbcDecryptBlocksFuel] at he
      · intro p hp
        simp only [cbcDecryptBlocksFuel, Except.ok.injEq] at hp
        exact ⟨[], by simp [decStepsBlocksFuel, hp]⟩
  | succ M ih =>
      intro prev idx data
      cases data with
      | nil =>
          constructor
          · intro e he
            simp [cbcDecryptBlocksFuel] at he
          · intro p hp
            simp only [cbcDecryptBlocksFuel, Except.ok.injEq] at hp
            exact ⟨[], by simp [decStepsBlocksFuel, hp]⟩
      | cons h t =>
          simp only [cbcDecryptBlocksFuel, decStepsBlocksFuel]
          cases hd : aesDecryptBlock ((h :: t).take 16) key with
          | error e0 =>
              rw [except_bind_error, except_bind_error]
              refine ⟨?_, fun p hp => by simp at hp⟩
              intro e he
              simp only [Except.error.injEq] at he ⊢
              exact he
          | ok d =>
              rw [except_bind_ok, except_bind_ok]
              cases hx : xorBytes d prev with
              | error e0 =>
                  rw [except_bind_error, except_bind_error]
                  refine ⟨?_, fun p hp => by simp at hp⟩
                  intro e he
                  simp only [Except.error.injEq] at he ⊢
                  exact he
              | ok x =>
                  rw [except_bind_ok, except_bind_ok]
                  obtain ⟨ih1, ih2⟩ := ih ((h :: t).take 16) (idx+1) (t.drop 15)
                  cases hr : cbcDecryptBlocksFuel key M ((h :: t).take 16) (t.drop 15) with
                  | error e0 =>
                      rw [except_bind_error, ih1 e0 hr, except_bind_error]
                      refine ⟨?_, fun p hp => by simp at hp⟩
                      intro e he
                      simp only [Except.error.injEq] at he ⊢
                      exact he
                  | ok p2 =>
                      rw [except_bind_ok]
                      obtain ⟨bs, hbs⟩ := ih2 p2 hr
                      rw [hbs, except_bind_ok]
                      constructor
                      · intro e hee
                        simp at hee
                      · intro p hp
                        simp only [Except.ok.injEq] at hp
                        exact ⟨_, by rw [← hp]⟩

theorem encLoop_vs_steps (key prev : List Nat) (idx : Nat) (data : List Nat) :
    (∀ e, cbcEncryptBlocks key prev data = .error e →
      encStepsBlocks key prev idx data = .error e) ∧
    (∀ ct, cbcEncryptBlocks key prev data = .ok ct →
      ∃ bs, encStepsBlocks key prev idx data = .ok (bs, ct)) :=
  encSteps_vs_plain key data.length prev idx data

theorem decLoop_vs_steps (key prev : List Nat) (idx : Nat) (data : List Nat) :
    (∀ e, cbcDecryptBlocks key prev data = .error e →
      decStepsBlocks key prev idx data = .error e) ∧
    (∀ p, cbcDecryptBlocks key prev data = .ok p →
      ∃ bs, decStepsBlocks key prev idx data = .ok (bs, p)) :=
  decSteps_vs_plain key data.length prev idx data

/-- Counterexample to C10 as stated: the step-trace variants do not fail in
the same way as the plain variants.  With a 15-byte IV, decryptCBC fails
eagerly with InvalidIVLength while decryptCBCWithSteps (which never checks
the IV) runs its loop and surfaces a wrapped unpad failure; encryptCBC fails
with InvalidIVLength while encryptCBCWithSteps surfaces a raw
length-mismatch error from xorBytes. -/
theorem C10_failure_modes_differ :
    decryptCBC [] (List.replicate 16 0) (List.replicate 15 0) =
      .error "Invalid IV length: 15 bytes. Must be 16 bytes." ∧
    decryptCBCWithSteps [] (List.replicate 16 0) (List.replicate 15 0) =
      .error "Decryption failed: Cannot unpad empty data. This may be due to incorrect key, IV, or corrupted ciphertext." ∧
    "Invalid IV length: 15 bytes. Must be 16 bytes." ≠
      "Decryption failed: Cannot unpad empty data. This may be due to incorrect key, IV, or corrupted ciphertext." ∧
    encryptCBC [1] (List.replicate 16 0) (List.replicate 15 0) =
      .error "Invalid IV length: 15 bytes. Must be 16 bytes." ∧
    encryptCBCWithSteps [1] (List.replicate 16 0) (List.replicate 15 0) =
      .error "Byte arrays must have the same length: 16 vs 15" :=
  ⟨rfl, rfl, by decide, rfl, rfl⟩

/-- C10 amended: on inputs that pass the plain variants' eager validation
(16-byte IV; for decryption also a ciphertext length that is a multiple of
16), each step-trace variant succeeds exactly when the plain variant does,
with identical iv, padded plaintext, ciphertext and plaintext; encryption
failures beyond validation carry the same error, and decryption failures
occur together (the step variant wrapping the specific message).  Without
those validation hypotheses the failure modes differ (see the
counterexample). -/
theorem C10_steps_refinement :
    (∀ m key iv : List Nat, iv.length = 16 →
      (∀ e, encryptCBC m key iv = .error e ↔ encryptCBCWithSteps m key iv = .error e) ∧
      (∀ ct, encryptCBC m key iv = .ok (iv, ct) ↔
        ∃ s, encryptCBCWithSteps m key iv = .ok s ∧ s.iv = iv ∧ s.plaintext = m ∧
          s.paddedPlaintext = padPKCS7 m 16 ∧ s.ciphertext = ct)) ∧
    (∀ c key iv : List Nat, iv.length = 16 → c.length % 16 = 0 →
      (∀ p, decryptCBC c key iv = .ok p ↔
        ∃ s, decryptCBCWithSteps c key iv = .ok s ∧ s.iv = iv ∧ s.ciphertext = c ∧
          s.plaintext = p) ∧
      ((∃ e, decryptCBC c key iv = .error e) ↔
        (∃ e, decryptCBCWithSteps c key iv = .error e))) := by
  constructor
  · intro m key iv h16
    have hplain : encryptCBC m key iv =
        (cbcEncryptBlocks key iv (padPKCS7 m 16)) >>= fun ct => .ok (iv, ct) := by
      simp only [encryptCBC]
      rw [if_neg (by omega)]
    have hsteps : encryptCBCWithSteps m key iv =
        (encStepsBlocks key iv 0 (padPKCS7 m 16)) >>= fun p =>
          .ok ⟨iv, m, padPKCS7 m 16, p.1, p.2⟩ := by
      simp only [encryptCBCWithSteps]
    obtain ⟨hpar1, hpar2⟩ := encLoop_vs_steps key iv 0 (padPKCS7 m 16)
    constructor
    · intro e
      constructor
      · intro he
        rw [hplain] at he
        cases hr : cbcEncryptBlocks key iv (padPKCS7 m 16) with
        | error e0 =>
            rw [hr, except_bind_error] at he
            rw [hsteps, hpar1 e0 hr, except_bind_error]
            simp only [Except.error.injEq] at he ⊢
            exact he
        | ok ct0 =>
            rw [hr, except_bind_ok] at he
            simp at he
      · intro he
        rw [hsteps] at he
        cases hr : cbcEncryptBlocks key iv (padPKCS7 m 16) with
        | error e0 =>
            rw [hpar1 e0 hr, except_bind_error] at he
            rw [hplain, hr, except_bind_error]
            simp only [Except.error.injEq] at he ⊢
            exact he
        | ok ct0 =>
            obtain ⟨bs, hbs⟩ := hpar2 ct0 hr
            rw [hbs, except_bind_ok] at he
            simp at he
    · intro ct
      constructor
      · intro hok
        rw [hplain] at hok
        cases hr : cbcEncryptBlocks key iv (padPKCS7 m 16) with
        | error e0 =>
            rw [hr, except_bind_error] at hok
            simp at hok
        | ok ct0 =>
            rw [hr, except_bind_ok] at hok
            simp only [Except.ok.injEq, Prod.mk.injEq] at hok
            obtain ⟨bs, hbs⟩ := hpar2 ct0 hr
            refine ⟨⟨iv, m, padPKCS7 m 16, bs, ct0⟩, ?_, rfl, rfl, rfl, hok.2⟩
            rw [hsteps, hbs, except_bind_ok]
      · intro hex
        obtain ⟨s, hs, hsiv, hsm, hspad, hsct⟩ := hex
        cases hr : cbcEncryptBlocks key iv (padPKCS7 m 16) with
        | error e0 =>
            rw [hsteps, hpar1 e0 hr, except_bind_error] at hs
            simp at hs
        | ok ct0 =>
            obtain ⟨bs, hbs⟩ := hpar2 ct0 hr
            rw [hsteps, hbs, except_bind_ok] at hs
            simp only [Except.ok.injEq] at hs
            rw [hplain, hr, except_bind_ok, ← hsct, ← hs]
  · intro c key iv h16 hmod
    have hplain : decryptCBC c key iv =
        (cbcDecryptBlocks key iv c) >>= fun pt =>
          match unpadPKCS7 pt with
          | .ok r => .ok r
          | .error _ =>
              .error "Decryption failed: Invalid padding. This may be due to incorrect key, IV, or corrupted ciphertext." := by
      simp only [decryptCBC]
      rw [if_neg (by omega), if_neg (by omega)]
    have hsteps : decryptCBCWithSteps c key iv =
        match ((decStepsBlocks key iv 0 c) >>= fun bp =>
          (unpadPKCS7 bp.2) >>= fun pt =>
            pure (⟨iv, c, bp.1, bp.2, pt⟩ : DecSteps) : Except String DecSteps) with
        | .ok r => .ok r
        | .error e =>
            .error ("Decryption failed: " ++ e ++
              ". This may be due to incorrect key, IV, or corrupted ciphertext.") := rfl
    obtain ⟨hpar1, hpar2⟩ := decLoop_vs_steps key iv 0 c
    constructor
    · intro p
      constructor
      · intro hok
        rw [hplain] at hok
        cases hr : cbcDecryptBlocks key iv c with
        | error e0 =>
            rw [hr, except_bind_error] at hok
            simp at hok
        | ok padded =>
            rw [hr, except_bind_ok] at hok
            cases hu : unpadPKCS7 padded with
            | error m0 =>
                rw [hu] at hok
                simp at hok
            | ok pt =>
                rw [hu] at hok
                simp only [Except.ok.injEq] at hok
                obtain ⟨bs, hbs⟩ := hpar2 padded hr
                refine ⟨⟨iv, c, bs, padded, pt⟩, ?_, rfl, rfl, hok⟩
                rw [hsteps, hbs, except_bind_ok, hu, except_bind_ok]
                rfl
      · intro hex
        obtain ⟨s, hs, hsiv, hsc, hsp⟩ := hex
        cases hr : cbcDecryptBlocks key iv c with
        | error e0 =>
            rw [hsteps, hpar1 e0 hr, except_bind_error] at hs
            simp at hs
        | ok padded =>
            obtain ⟨bs, hbs⟩ := hpar2 padded hr
            rw [hsteps, hbs, except_bind_ok] at hs
            cases hu : unpadPKCS7 padded with
            | error m0 =>
                rw [hu, except_bind_error] at hs
                simp at hs
            | ok pt =>
                rw [hu, except_bind_ok] at hs
                have hs2 : (⟨iv, c, bs, padded, pt⟩ : DecSteps) = s := by
                  have hs3 : (Except.ok (⟨iv, c, bs, padded, pt⟩ : DecSteps) :
                      Except String DecSteps) = Except.ok s := hs
                  simpa using hs3
                rw [hplain, hr, except_bind_ok, hu, ← hsp, ← hs2]
    · constructor
      · intro hex
        obtain ⟨e, he⟩ := hex
        rw [hplain] at he
        cases hr : cbcDecryptBlocks key iv c with
        | error e0 =>
            exact ⟨_, by rw [hsteps, hpar1 e0 hr, except_bind_error]⟩
        | ok padded =>
            rw [hr, except_bind_ok] at he
            cases hu : unpadPKCS7 padded with
            | error m0 =>
                obtain ⟨bs, hbs⟩ := hpar2 padded hr
                exact ⟨_, by rw [hsteps, hbs, except_bind_ok, hu, except_bind_error]⟩
            | ok pt =>
                rw [hu] at he
                simp at he
      · intro hex
        obtain ⟨e, he⟩ := hex
        cases hr : cbcDecryptBlocks key iv c with
        | error e0 =>
            exact ⟨_, by rw [hplain, hr, except_bind_error]⟩
        | ok padded =>
            cases hu : unpadPKCS7 padded with
            | error m0 =>
                exact ⟨_, by rw [hplain, hr, except_bind_ok, hu]⟩
            | ok pt =>
                obtain ⟨bs, hbs⟩ := hpar2 padded hr
                rw [hsteps, hbs, except_bind_ok, hu, except_bind_ok] at he
                have he2 : (Except.ok (⟨iv, c, bs, padded, pt⟩ : DecSteps) :
                    Except String DecSteps) = Except.error e := he
                simp at he2

/-- Witness for the amended C10: the concrete HELLO ciphertext decrypts to
the same plaintext through both decryptCBC and decryptCBCWithSteps. -/
theorem C10_steps_refinement_witness :
    ∃ s, decryptCBCWithSteps
        [184, 101, 62, 221, 190, 240, 246, 11, 12, 31, 57, 204, 62, 35, 40, 190]
        (List.replicate 16 0) (List.replicate 16 0) = .ok s ∧
      s.iv = List.replicate 16 0 ∧
      s.ciphertext = [184, 101, 62, 221, 190, 240, 246, 11, 12, 31, 57, 204, 62, 35, 40, 190] ∧
      s.plaintext = [0x48, 0x45, 0x4c, 0x4c, 0x4f] :=
  ((C10_steps_refinement.2
      [184, 101, 62, 221, 190, 240, 246, 11, 12, 31, 57, 204, 62, 35, 40, 190]
      (List.replicate 16 0) (List.replicate 16 0) (by decide) (by decide)).1
    [0x48, 0x45, 0x4c, 0x4c, 0x4f]).mp (by rfl)

/-! ## Claim C9: the string-level hex boundary (src/crypto/utils.ts and
src/crypto/index.ts) -/

/-- The value of a hexadecimal digit character, none for a non-hex-digit. -/
def hexDigitVal (c : Char) : Option Nat :=
  if '0' ≤ c ∧ c ≤ '9' then some (c.toNat - 48)
  else if 'a' ≤ c ∧ c ≤ 'f' then some (c.toNat - 87)
  else if 'A' ≤ c ∧ c ≤ 'F' then some (c.toNat - 55)
  else none

/-- The JS `parseInt(chunk, 16)` applied to one two-character chunk, as
hexToBytes does: the longest hex-digit prefix is parsed; a chunk whose first
character is not a hex digit yields NaN (modelled as none).  The exotic
parseInt forms (signs, 0x prefixes) cannot reach a byte value in 0..255 and
are not modelled. -/
def jsParseIntHex2 (c1 c2 : Char) : Option Nat :=
  match hexDigitVal c1, hexDigitVal c2 with
  | none, _ => none
  | some v1, none => some v1
  | some v1, some v2 => some (16 * v1 + v2)

/-- The chunking loop of hexToBytes: one parsed value per two characters.
The input always has even length (hexToBytes pads it), so the one-character
case is unreachable. -/
def hexChunks : List Char → List (Option Nat)
  | c1 :: c2 :: rest => jsParseIntHex2 c1 c2 :: hexChunks rest
  | [_] => []
  | [] => []

/-- hexToBytes of utils.ts: strip whitespace, left-pad to even length with a
zero character, then convert each two-character chunk with parseInt; the
result entries are JS numbers that may be NaN (none) — the function never
throws and never rejects non-hex characters. -/
def hexToBytesJS (hex : String) : List (Option Nat) :=
  let cleaned := hex.toList.filter (fun c => ¬ c.isWhitespace)
  let padded := if cleaned.length % 2 ≠ 0 then '0' :: cleaned else cleaned
  hexChunks padded

/-- isValidKeyLength of utils.ts applied to the converted key bytes: a pure
length test. -/
def isValidKeyLengthJS (key : List (Option Nat)) : Bool :=
  key.length == 16 || key.length == 24 || key.length == 32

/-- The validation phase of decrypt in index.ts (lines up to the key-length
check): hexToBytes conversion of the three hex parameters, then the only
boundary check the source performs — isValidKeyLength on the converted key.
Everything after this point is block processing. -/
def decryptValidationPhase (ciphertext key iv : String) :
    Except String (List (Option Nat) × List (Option Nat) × List (Option Nat)) :=
  let ciphertextBytes := hexToBytesJS ciphertext
  let keyBytes := hexToBytesJS key
  let ivBytes := hexToBytesJS iv
  if ¬ isValidKeyLengthJS keyBytes then
    .error ("Invalid key length: " ++ toString keyBytes.length ++
      " bytes. Must be 16, 24, or 32 bytes.")
  else
    .ok (ciphertextBytes, keyBytes, ivBytes)

/-- Counterexample to C9 as stated: the non-hex key string "zz" is not
rejected at the boundary — hexToBytes converts it to a NaN entry, and
decrypt then reports InvalidKeyLength (from the converted length 1), not any
InvalidHexInput condition. -/
theorem C9_nonhex_not_rejected :
    hexToBytesJS "zz" = [none] ∧
    decryptValidationPhase "00" "zz" "00" =
      .error "Invalid key length: 1 bytes. Must be 16, 24, or 32 bytes." :=
  ⟨rfl, rfl⟩

/-- C9 amended: the string-level decrypt performs no hex validation at all:
hexToBytesJS totally converts any input string (non-hex chunks become NaN),
and the only eager boundary check before block processing is the key-length
test on the converted bytes; consequently the validation phase either
succeeds with the three converted byte lists or fails with InvalidKeyLength
— no InvalidHexInput error exists. -/
theorem C9_no_hex_validation (ciphertext key iv : String) :
    decryptValidationPhase ciphertext key iv =
        .ok (hexToBytesJS ciphertext, hexToBytesJS key, hexToBytesJS iv) ∨
      decryptValidationPhase ciphertext key iv =
        .error ("Invalid key length: " ++ toString (hexToBytesJS key).length ++
          " bytes. Must be 16, 24, or 32 bytes.") := by
  by_cases h : isValidKeyLengthJS (hexToBytesJS key) = true
  · left
    simp only [decryptValidationPhase]
    rw [if_neg (by simp [h])]
  · right
    simp only [decryptValidationPhase]
    rw [if_pos (by simpa using h)]
